import Mathlib

/-! Camera calibration pipeline (`camCalib/main.cpp`).

A shallow embedding of the calibration data pipeline: the world pattern
generator, the text matrix codec, the interactive capture loop and the
extrinsic solve.

Conventions of the embedding.

* `F` is the carrier of `double` values and `R` the carrier of `float`
  values.  Both are abstract: the program only moves such values around,
  multiplies a converted loop counter by the edge length, and hands them to
  the stream formatter.
* Library calls whose result depends on pixels or on numerical optimisation
  (`findChessboardCorners`, `calibrateCamera`, `solvePnPRansac`, `Rodrigues`,
  `rotate`, the formatted stream insertion and extraction of a `double`) are
  parameters of the definitions that call them.
* A `for (int i = 0; i < n; i++)` loop is a left fold over `List.range`.
* An element access outside of a matrix buffer, and an exception thrown by a
  library call, abort the run: the enclosing function returns `none`.
-/

namespace CamCalib

/-! ## Geometry -/

/-- The `cv::Size` pair: the width comes first, the height second. -/
structure Size where
  width : Int
  height : Int
deriving DecidableEq, Repr

/-- The `cv::Point3f` triple over the carrier `R` of `float` values. -/
structure Point3f (R : Type) where
  x : R
  y : R
  z : R
deriving DecidableEq, Repr

/-- The global `chessboardDim = Size(9,6)`. -/
def chessboardDim : Size := ⟨9, 6⟩

/-- The function `createKnownBoardPosition`: two nested counting loops, the
outer one over the board height and the inner one over the board width, each
iteration pushing `Point3f(j*squareEdgeLength, i*squareEdgeLength, 0.0f)` at
the back of `corners`.  The `int` counters are converted to `float` before
the product. -/
def createKnownBoardPosition {R : Type} [IntCast R] [Mul R] [Zero R]
    (boardSize : Size) (squareEdgeLength : R) (corners : List (Point3f R)) :
    List (Point3f R) :=
  (List.range boardSize.height.toNat).foldl
    (fun corners (i : Nat) =>
      (List.range boardSize.width.toNat).foldl
        (fun corners (j : Nat) =>
          corners ++ [Point3f.mk (((j : Int) : R) * squareEdgeLength)
                                 (((i : Int) : R) * squareEdgeLength) 0])
        corners)
    corners

/-! ## Matrices -/

/-- A continuous `cv::Mat` of `double`: the row and column counts and the
buffer in row-major order. -/
structure Mat (F : Type) where
  rows : Nat
  cols : Nat
  data : List F
deriving DecidableEq, Repr

namespace Mat

/-- The buffer of a real matrix holds `rows * cols` elements. -/
def WF {F : Type} (m : Mat F) : Prop := m.data.length = m.rows * m.cols

instance {F : Type} (m : Mat F) : Decidable m.WF := by
  unfold WF; infer_instance

/-- The constructor `Mat(Size(w, h), CV_64F)`: `h` rows and `w` columns,
contents not initialised (`junk k` is whatever cell `k` of the fresh buffer
holds). -/
def ofSize {F : Type} (junk : Nat → F) (w h : Nat) : Mat F :=
  ⟨h, w, (List.range (h * w)).map junk⟩

/-- The matrix `Mat::zeros(rows, cols, CV_64F)`. -/
def zeros {F : Type} [Zero F] (rows cols : Nat) : Mat F :=
  ⟨rows, cols, List.replicate (rows * cols) 0⟩

/-- Whether the index check of `Mat::at` passes.  It is compiled in only in
debug builds (`dbg = true`). -/
def inRange {F : Type} (dbg : Bool) (m : Mat F) (r c : Nat) : Bool :=
  !dbg || (decide (r < m.rows) && decide (c < m.cols))

/-- Reading `m.at<double>(r, c)`: the element at offset `r * cols + c` of the
buffer.  A failed index check and an offset outside the buffer abort. -/
def getAt {F : Type} (dbg : Bool) (m : Mat F) (r c : Nat) : Option F :=
  if inRange dbg m r c then m.data[r * m.cols + c]? else none

/-- Writing `m.at<double>(r, c) = v`. -/
def setAt {F : Type} (dbg : Bool) (m : Mat F) (r c : Nat) (v : F) : Option (Mat F) :=
  if inRange dbg m r c && decide (r * m.cols + c < m.data.length) then
    some { m with data := m.data.set (r * m.cols + c) v }
  else none

end Mat

/-- The function `cv::hconcat(a, b, dst)`: the rows of `a` each followed by
the same row of `b`.  The library throws when the row counts differ. -/
def hconcat {F : Type} (a b : Mat F) : Option (Mat F) :=
  if a.rows = b.rows then
    some ⟨a.rows, a.cols + b.cols,
      (List.range a.rows).flatMap (fun r =>
        (a.data.drop (r * a.cols)).take a.cols ++ (b.data.drop (r * b.cols)).take b.cols)⟩
  else none

/-! ## Text streams -/

/-- The line terminator written by `endl`. -/
def endl : List Char := [Char.ofNat 10]

/-- The lines of a text, each closed by `endl`, as one character sequence. -/
def unlines (ls : List (List Char)) : List Char :=
  ls.flatMap (fun l => l ++ endl)

/-- The insertion `out << n` of a `uint16_t`: its decimal numeral. -/
def showU16 (n : Nat) : List Char := Nat.toDigits 10 n

/-- The block that both `saveCameraCalibration` (twice) and
`solveExtrinsicMatrix` run on an open output stream: the row and column
counts narrowed to `uint16_t`, each on a line, then one line per element,
rows outermost.  `fmt` is the insertion `out << value` of a `double`. -/
def writeMat {F : Type} (dbg : Bool) (fmt : F → List Char) (m : Mat F)
    (out : List Char) : Option (List Char) :=
  let rows := m.rows % 65536
  let columns := m.cols % 65536
  let out := out ++ showU16 rows ++ endl ++ showU16 columns ++ endl
  (List.range rows).foldlM
    (fun out r =>
      (List.range columns).foldlM
        (fun out c => do
          let value ← m.getAt dbg r c
          some (out ++ fmt value ++ endl))
        out)
    out

/-- The function `saveCameraCalibration`.  `opens` tells whether the output
stream could be opened.  The result is the returned flag and the text of the
file when one was written. -/
def saveCameraCalibration {F : Type} (dbg : Bool) (fmt : F → List Char) (opens : Bool)
    (cameraMatrix distanceCoefficients : Mat F) : Option (Bool × Option (List Char)) :=
  if opens then do
    let out ← writeMat dbg fmt cameraMatrix []
    let out ← writeMat dbg fmt distanceCoefficients out
    some (true, some out)
  else some (false, none)

/-- What one formatted extraction `in >> x` does on the characters that are
left. -/
inductive Scan (α : Type) where
  /-- A value was read; `rest` is left in the stream. -/
  | ok (v : α) (rest : List Char)
  /-- The characters are no value: `stored` is written to `x`, the stream fails. -/
  | bad (stored : α)
  /-- Nothing but white space is left: `x` is not touched, the stream fails. -/
  | eof
deriving DecidableEq, Repr

/-- An input stream: the characters left, and the fail flag.  The program
never clears the flag. -/
structure IStream where
  chars : List Char
  fail : Bool
deriving DecidableEq, Repr

/-- The extraction `in >> x`: the new value of `x` and the stream after it.
On a failed stream nothing is read and `x` keeps its value. -/
def extract {α : Type} (scan : List Char → Scan α) (s : IStream) (x : α) : α × IStream :=
  if s.fail then (x, s)
  else
    match scan s.chars with
    | Scan.ok v rest => (v, ⟨rest, false⟩)
    | Scan.bad stored => (stored, ⟨s.chars, true⟩)
    | Scan.eof => (x, ⟨s.chars, true⟩)

/-- The extraction into a `uint16_t` variable. -/
def extractU16 (scan : List Char → Scan Nat) (s : IStream) (x : Nat) : Nat × IStream :=
  ((extract scan s x).1 % 65536, (extract scan s x).2)

/-- The two nested loops of `loadCameraCalibration`: every iteration sets
`read` to zero, extracts into it and stores it at `(r, c)`. -/
def readMat {F : Type} [Zero F] (dbg : Bool) (scanF : List Char → Scan F)
    (rows columns : Nat) (m : Mat F) (s : IStream) : Option (Mat F × IStream) :=
  (List.range rows).foldlM
    (fun st r =>
      (List.range columns).foldlM
        (fun st c =>
          (st.1.setAt dbg r c (extract scanF st.2 0).1).map
            (fun m => (m, (extract scanF st.2 0).2)))
        st)
    (m, s)

/-- The function `loadCameraCalibration`.  `file` is the text of the file,
`none` when it cannot be opened; `rows0` and `columns0` are the contents of
the two local variables before the first extraction.  The camera matrix is
built by `Mat(Size(rows, columns), CV_64F)`, the distortion matrix by
`Mat::zeros(rows, columns, CV_64F)`. -/
def loadCameraCalibration {F : Type} [Zero F] (dbg : Bool)
    (scanU16 : List Char → Scan Nat) (scanF : List Char → Scan F) (junk : Nat → F)
    (rows0 columns0 : Nat) (file : Option (List Char))
    (cameraMatrix distancecoefficients : Mat F) : Option (Bool × Mat F × Mat F) :=
  match file with
  | none => some (false, cameraMatrix, distancecoefficients)
  | some text =>
    let readRows := extractU16 scanU16 ⟨text, false⟩ rows0
    let readColumns := extractU16 scanU16 readRows.2 columns0
    let rows := readRows.1
    let columns := readColumns.1
    match readMat dbg scanF rows columns (Mat.ofSize junk rows columns) readColumns.2 with
    | none => none
    | some (cameraMatrix, s) =>
      let readRows := extractU16 scanU16 s rows
      let readColumns := extractU16 scanU16 readRows.2 columns
      let rows := readRows.1
      let columns := readColumns.1
      match readMat dbg scanF rows columns (Mat.zeros rows columns) readColumns.2 with
      | none => none
      | some (distancecoefficients, _) => some (true, cameraMatrix, distancecoefficients)

/-! ### A decimal scanner

The extraction of a decimal numeral, used to run the codec on concrete
files: white space is skipped, then the longest run of digits is read.  In
the concrete runs the natural numbers stand for the `double` values that are
small non-negative integers, which the default formatting prints as plain
numerals. -/

/-- The white space an extraction skips: the characters for which `isspace`
holds in the default locale, that is the space and the characters `9`
to `13` (tab, line feed, vertical tab, form feed, carriage return). -/
def isSpace (c : Char) : Bool :=
  decide (c.toNat = 32) || (decide (9 ≤ c.toNat) && decide (c.toNat ≤ 13))

/-- The value of a run of decimal digits. -/
def digitsValue (ds : List Char) : Nat :=
  ds.foldl (fun a d => 10 * a + (d.toNat - 48)) 0

/-- Extraction of a `double` from a text whose next token is an unsigned
integer numeral, the only kind of token in the files read below.  A token
that starts with anything else than a digit stores zero and fails; that is
what the real extraction does when no numeral can be read, while a sign, a
fraction or an exponent, which it would accept, has no counterpart among the
natural numbers and is outside this stand-in. -/
def scanNat (cs : List Char) : Scan Nat :=
  match cs.dropWhile isSpace with
  | [] => Scan.eof
  | c :: rest =>
    if c.isDigit then
      Scan.ok (digitsValue ((c :: rest).takeWhile Char.isDigit))
        ((c :: rest).dropWhile Char.isDigit)
    else Scan.bad 0

/-- Extraction of a decimal numeral into a `uint16_t`: white space is
skipped, one sign is accepted, then the longest run of digits is read.  No
digit stores zero and fails; a magnitude above `65535` stores `65535` and
fails; a magnitude `v` after a minus sign is stored negated in sixteen bits,
`(65536 - v) % 65536`. -/
def scanU16 (cs : List Char) : Scan Nat :=
  match cs.dropWhile isSpace with
  | [] => Scan.eof
  | c :: rest =>
    let body := if c = '+' ∨ c = '-' then rest else c :: rest
    match body.takeWhile Char.isDigit with
    | [] => Scan.bad 0
    | d :: ds =>
      if digitsValue (d :: ds) ≤ 65535 then
        Scan.ok
          (if c = '-' then (65536 - digitsValue (d :: ds)) % 65536 else digitsValue (d :: ds))
          (body.dropWhile Char.isDigit)
      else Scan.bad 65535

/-- A matrix of `65536` rows and one column. -/
def tallMat : Mat Nat := ⟨65536, 1, List.replicate 65536 0⟩

/-- The state of a reading loop that has stored the first `j` of the values
`vals` of a file: the matrix has the declared shape, its first `j` elements
are the values read back (`pass v` is the value that reading the text of `v`
gives), and the stream stands before the remaining values, which `tail`
follows. -/
def ReadInv {F : Type} (fmt : F → List Char) (pass : F → F) (rows columns : Nat)
    (vals : List F) (tail : List Char) (j : Nat) (st : Mat F × IStream) : Prop :=
  st.1.rows = rows ∧ st.1.cols = columns ∧ st.1.WF ∧
  (∀ i, i < j → st.1.data[i]? = (vals[i]?).map pass) ∧
  st.2 = ⟨endl ++ (unlines ((vals.drop j).map fmt) ++ tail), false⟩

/-! ## Corner detection and the intrinsic solve -/

/-- The arguments of one call of `calibrateCamera`: the world points, the
image points, the size argument, and what the two in/out matrices hold on
entry. -/
structure CalibCall (R P2 F : Type) where
  objectPoints : List (List (Point3f R))
  imagePoints : List (List P2)
  imageSize : Size
  cameraMatrix : Mat F
  distCoeffs : Mat F
deriving DecidableEq, Repr

/-- The library calls of the calibration path.  `Img` is the type of frames,
`P2` of image points. -/
structure Vision (Img R P2 F : Type) where
  /-- The call `findChessboardCorners(image, patternSize, corners, flags)`
  with the flags the program passes: the returned flag and the corners. -/
  findChessboardCorners : Img → Size → Bool × List P2
  /-- The call `rotate(frame, frame, ROTATE_90_CLOCKWISE)`. -/
  rotate : Img → Img
  /-- The call `calibrateCamera(...)`: the camera matrix and the distortion
  coefficients it leaves in its in/out arguments. -/
  calibrateCamera : CalibCall R P2 F → Mat F × Mat F
  /-- The insertion `out << value` of a `double`. -/
  fmt : F → List Char

/-- The function `getChessboardCorners`: detection with `Size(9, 6)` on every
image in turn, the corners of an image pushed at the back of
`allFoundCorners` when the detection reports success.  The display branch
(`showResults`) draws and waits for a key; it does not touch the result. -/
def getChessboardCorners {Img R P2 F : Type} (lib : Vision Img R P2 F) (images : List Img)
    (allFoundCorners : List (List P2)) (_showResults : Bool) : List (List P2) :=
  images.foldl
    (fun allFoundCorners image =>
      if (lib.findChessboardCorners image ⟨9, 6⟩).1 then
        allFoundCorners ++ [(lib.findChessboardCorners image ⟨9, 6⟩).2]
      else allFoundCorners)
    allFoundCorners

/-- The call `v.resize(n, val)` of `std::vector`. -/
def vectorResize {α : Type} (n : Nat) (val : α) (v : List α) : List α :=
  if n ≤ v.length then v.take n else v ++ List.replicate (n - v.length) val

/-- The function `cameraCalibration`: the call it makes to `calibrateCamera`
and the two matrices the call leaves behind.  The world list starts as one
empty pattern, which `createKnownBoardPosition` fills and `resize` then
copies. -/
def cameraCalibration {Img R P2 F : Type} [IntCast R] [Mul R] [Zero R] [Zero F]
    (lib : Vision Img R P2 F) (calibrationImages : List Img) (boardSize : Size)
    (squareEdgeLength : R) (cameraMatrix : Mat F) : CalibCall R P2 F × Mat F × Mat F :=
  let chessboardImageSpacePoints := getChessboardCorners lib calibrationImages [] false
  let pattern := createKnownBoardPosition boardSize squareEdgeLength []
  let worldSpaceCornerPoints :=
    vectorResize chessboardImageSpacePoints.length pattern [pattern]
  let distanceCoefficients : Mat F := Mat.zeros 8 1
  let call : CalibCall R P2 F :=
    ⟨worldSpaceCornerPoints, chessboardImageSpacePoints, boardSize, cameraMatrix,
      distanceCoefficients⟩
  (call, lib.calibrateCamera call)

/-! ## The capture loop -/

/-- What the capture loop does to the world outside, in order. -/
inductive Effect (Img R P2 F : Type) where
  /-- The call `create_directory(name)`. -/
  | createDirectory (name : String)
  /-- The call `imwrite(filename, image)`. -/
  | imwrite (filename : String) (image : Img)
  /-- The call `calibrateCamera(...)`. -/
  | calibrateCamera (call : CalibCall R P2 F)
  /-- A file written through an output stream. -/
  | fileWritten (name : String) (text : List Char)
deriving DecidableEq, Repr

/-- The variables the capture loop works on: the local `savedImages`, the
global `directoryName`, the two matrices passed by reference, and the trace
of effects so far. -/
structure Session (Img R P2 F : Type) where
  savedImages : List Img
  directoryName : String
  cameraMatrix : Mat F
  distanceCoefficients : Mat F
  effects : List (Effect Img R P2 F)
deriving DecidableEq, Repr

/-- What one turn of the loop gets from outside: the frame `cap.read`
delivers (`none` when it fails), the value of `waitKey`, the time stamp
`put_time` would print, and whether an output stream opens. -/
structure Turn (Img : Type) where
  frame : Option Img
  key : Int
  now : String
  opens : Bool
deriving DecidableEq, Repr

/-- How a turn leaves the loop. -/
inductive Status where
  | running
  | returned
  | aborted
deriving DecidableEq, Repr

/-- The conversion of the `int` that `waitKey` returns to `char`. -/
def toChar (key : Int) : Int := (key + 128) % 256 - 128

/-- One turn of the `while(true)` loop of `cameraCalibrationProcess`.
`calibSquareDim` is the global `float` constant of that name.  Drawing and
showing the frame has no effect on the session and is left out. -/
def loopBody {Img R P2 F : Type} [IntCast R] [Mul R] [Zero R] [Zero F]
    (lib : Vision Img R P2 F) (dbg rotateImage : Bool) (calibSquareDim : R)
    (s : Session Img R P2 F) (t : Turn Img) : Status × Session Img R P2 F :=
  match t.frame with
  | none => (Status.returned, s)
  | some frame0 =>
    let frame := if rotateImage then lib.rotate frame0 else frame0
    let found := (lib.findChessboardCorners frame chessboardDim).1
    let character := toChar t.key
    if character = 32 then
      if found then
        let savedImages := s.savedImages ++ [frame]
        let first := decide (savedImages.length = 1)
        let directoryName := if first then "../" ++ t.now else s.directoryName
        let effects :=
          if first then s.effects ++ [Effect.createDirectory directoryName] else s.effects
        let filename := directoryName ++ "/" ++ toString savedImages.length ++ ".png"
        (Status.running,
          { s with
            savedImages := savedImages
            directoryName := directoryName
            effects := effects ++ [Effect.imwrite filename frame] })
      else (Status.running, s)
    else if character = 13 then
      if s.savedImages.length > 10 then
        let r := cameraCalibration lib s.savedImages chessboardDim calibSquareDim s.cameraMatrix
        let s1 : Session Img R P2 F :=
          { s with
            cameraMatrix := r.2.1
            distanceCoefficients := r.2.2
            effects := s.effects ++ [Effect.calibrateCamera r.1] }
        match saveCameraCalibration dbg lib.fmt t.opens r.2.1 r.2.2 with
        | none => (Status.aborted, s1)
        | some (_, none) => (Status.running, s1)
        | some (_, some text) =>
          (Status.running,
            { s1 with
              effects := s1.effects ++
                [Effect.fileWritten (s.directoryName ++ "/" ++ "IntrinsicMatrixOpenCV.txt") text] })
      else (Status.running, s)
    else if character = 27 then (Status.returned, s)
    else (Status.running, s)

/-- The loop from a given state: turns are taken until one leaves the loop
or the turns run out. -/
def captureLoop {Img R P2 F : Type} [IntCast R] [Mul R] [Zero R] [Zero F]
    (lib : Vision Img R P2 F) (dbg rotateImage : Bool) (calibSquareDim : R) :
    Session Img R P2 F → List (Turn Img) → Status × Session Img R P2 F
  | s, [] => (Status.running, s)
  | s, t :: ts =>
    match loopBody lib dbg rotateImage calibSquareDim s t with
    | (Status.running, s1) => captureLoop lib dbg rotateImage calibSquareDim s1 ts
    | r => r

/-- The function `cameraCalibrationProcess`: the loop entered with no saved
image, `directoryName` holding what the global holds at that time. -/
def cameraCalibrationProcess {Img R P2 F : Type} [IntCast R] [Mul R] [Zero R] [Zero F]
    (lib : Vision Img R P2 F) (dbg rotateImage : Bool) (calibSquareDim : R)
    (directoryName : String) (cameraMatrix distanceCoefficients : Mat F)
    (turns : List (Turn Img)) : Status × Session Img R P2 F :=
  captureLoop lib dbg rotateImage calibSquareDim
    ⟨[], directoryName, cameraMatrix, distanceCoefficients, []⟩ turns

/-! ## The extrinsic solve -/

/-- What `solvePnPRansac` hands back: its return value and the two vectors it
leaves in its output arguments. -/
structure Pose (F : Type) where
  found : Bool
  rvec : Mat F
  tvec : Mat F
deriving DecidableEq, Repr

/-- The function `solveExtrinsicMatrix`.  `solvePnPRansac` is the library
call on the fixed four correspondences with the settings `100, 2.0, 0.99`;
`Rodrigues` is the library conversion, `none` when it throws.  The value the
program first assigns to `cameraExtrinsics` is overwritten by `hconcat`
before it is read.  The result is the returned flag, the matrix left in
`cameraExtrinsics`, and the name and text of the file when one was written. -/
def solveExtrinsicMatrix {F : Type} (dbg : Bool) (solvePnPRansac : Mat F → Mat F → Pose F)
    (Rodrigues : Mat F → Option (Mat F)) (fmt : F → List Char) (now : String) (opens : Bool)
    (cameraIntrinsics distanceCoefficients : Mat F) :
    Option (Bool × Mat F × Option (String × List Char)) :=
  let pose := solvePnPRansac cameraIntrinsics distanceCoefficients
  match Rodrigues pose.rvec with
  | none => none
  | some rotationMatrix =>
    match hconcat rotationMatrix pose.tvec with
    | none => none
    | some cameraExtrinsics =>
      let extrinsicsFileName := "../Extrinsics" ++ now ++ ".csv"
      if opens then
        match writeMat dbg fmt cameraExtrinsics [] with
        | none => none
        | some text => some (true, cameraExtrinsics, some (extrinsicsFileName, text))
      else some (true, cameraExtrinsics, none)

/-- An effect that stays inside the session directory `dir`: a frame image
`dir/<k>.png`, the result file `dir/IntrinsicMatrixOpenCV.txt`, or a solver
call.  Creating a directory is not one. -/
def Effect.inDirectory {Img R P2 F : Type} (dir : String) : Effect Img R P2 F → Prop
  | Effect.createDirectory _ => False
  | Effect.imwrite filename _ => ∃ k : Nat, filename = dir ++ "/" ++ toString k ++ ".png"
  | Effect.calibrateCamera _ => True
  | Effect.fileWritten name _ => name = dir ++ "/" ++ "IntrinsicMatrixOpenCV.txt"

/-- The shape of a session that started empty with `directoryName = dir0`:
either nothing was accepted and nothing happened, or the trace opens with the
creation of the current directory and the image of the first accepted frame,
and everything after stays inside that directory. -/
def Session.OneDirectory {Img R P2 F : Type} (dir0 : String) (s : Session Img R P2 F) : Prop :=
  (s.savedImages = [] ∧ s.effects = [] ∧ s.directoryName = dir0) ∨
  ∃ image rest,
    s.savedImages.head? = some image ∧
    s.effects =
      Effect.createDirectory s.directoryName ::
        Effect.imwrite (s.directoryName ++ "/" ++ toString 1 ++ ".png") image :: rest ∧
    ∀ e ∈ rest, e.inDirectory s.directoryName

/-! ### A small instance of the library

Frames are numbers and detection succeeds on the even ones; it is used to
run the definitions on concrete sessions. -/

/-- Frames are natural numbers; a frame is detected when it is even, rotation
adds two, the solver returns a fixed `3 x 3` matrix and keeps the distortion
vector it was given. -/
def evenVision : Vision Nat Int Nat Nat where
  findChessboardCorners := fun image _ => (decide (image % 2 = 0), [image])
  rotate := fun image => image + 2
  calibrateCamera := fun call => (⟨3, 3, [4, 0, 2, 0, 4, 1, 0, 0, 1]⟩, call.distCoeffs)
  fmt := showU16

/-- A session with the given stored frames under the directory `"../d"`. -/
def sessionOf (images : List Nat) : Session Nat Int Nat Nat :=
  ⟨images, "../d", Mat.zeros 0 0, Mat.zeros 0 0, []⟩

/-- A turn that delivers `frame` and the key `key`. -/
def turnOf (frame : Nat) (key : Int) : Turn Nat := ⟨some frame, key, "t", true⟩

/-- A pose estimation that reports that no pose was found and leaves two
`3 x 1` vectors of zeros in its outputs. -/
def noPose : Mat Nat → Mat Nat → Pose Nat :=
  fun _ _ => ⟨false, Mat.zeros 3 1, Mat.zeros 3 1⟩

/-- The Rodrigues conversion at the zero rotation vector: the identity. -/
def rodriguesZero : Mat Nat → Option (Mat Nat) :=
  fun _ => some ⟨3, 3, [1, 0, 0, 0, 1, 0, 0, 0, 1]⟩

/-! ## Counting loops -/

theorem foldl_push {α β : Type} (f : β → α) (xs : List β) (acc : List α) :
    xs.foldl (fun acc x => acc ++ [f x]) acc = acc ++ xs.map f := by
  induction xs generalizing acc with
  | nil => simp
  | cons x xs ih => simp [ih]

theorem foldl_append_blocks {α β : Type} (f : β → List α) (xs : List β) (acc : List α) :
    xs.foldl (fun acc x => acc ++ f x) acc = acc ++ xs.flatMap f := by
  induction xs generalizing acc with
  | nil => simp
  | cons x xs ih => simp [ih]

theorem length_grid {α : Type} (g : Nat → Nat → α) (m n : Nat) :
    ((List.range m).flatMap (fun i => (List.range n).map (g i))).length = m * n := by
  induction m with
  | zero => simp
  | succ m ih =>
    rw [List.range_succ, List.flatMap_append, List.length_append, ih]
    simp [Nat.succ_mul]

theorem getElem?_grid {α : Type} (g : Nat → Nat → α) (m n i j : Nat) (hi : i < m) (hj : j < n) :
    ((List.range m).flatMap (fun i => (List.range n).map (g i)))[i * n + j]? = some (g i j) := by
  induction m with
  | zero => omega
  | succ m ih =>
    rw [List.range_succ, List.flatMap_append]
    by_cases h : i < m
    · have hlt : i * n + j < m * n := by
        calc i * n + j < i * n + n := by omega
          _ = (i + 1) * n := by ring
          _ ≤ m * n := Nat.mul_le_mul_right n h
      rw [List.getElem?_append_left (by rw [length_grid]; exact hlt)]
      exact ih h
    · have him : i = m := by omega
      subst him
      rw [List.getElem?_append_right (by rw [length_grid]; omega), length_grid]
      simp [hj]

theorem createKnownBoardPosition_eq {R : Type} [IntCast R] [Mul R] [Zero R]
    (boardSize : Size) (e : R) (corners : List (Point3f R)) :
    createKnownBoardPosition boardSize e corners =
      corners ++ (List.range boardSize.height.toNat).flatMap (fun (i : Nat) =>
        (List.range boardSize.width.toNat).map (fun (j : Nat) =>
          Point3f.mk (((j : Int) : R) * e) (((i : Int) : R) * e) 0)) := by
  unfold createKnownBoardPosition
  simp only [foldl_push]
  exact foldl_append_blocks _ _ _

/-- C4.  Called on an empty list for a board of `rows` by `cols` corners,
`createKnownBoardPosition` yields exactly `rows * cols` points; the point at
index `i * cols + j` is `(j*e, i*e, 0)`, so the order is row-major; and every
point has `z = 0`. -/
theorem createKnownBoardPosition_rowMajor {R : Type} [IntCast R] [Mul R] [Zero R]
    (rows cols : Nat) (e : R) :
    (createKnownBoardPosition ⟨cols, rows⟩ e []).length = rows * cols ∧
    (∀ i j, i < rows → j < cols →
      (createKnownBoardPosition ⟨cols, rows⟩ e [])[i * cols + j]? =
        some (Point3f.mk (((j : Int) : R) * e) (((i : Int) : R) * e) 0)) ∧
    ∀ p ∈ createKnownBoardPosition ⟨cols, rows⟩ e [], p.z = 0 := by
  rw [createKnownBoardPosition_eq]
  simp only [List.nil_append, Int.toNat_ofNat]
  refine ⟨length_grid _ _ _, fun i j hi hj => getElem?_grid _ _ _ i j hi hj, ?_⟩
  intro p hp
  simp only [List.mem_flatMap, List.mem_map, List.mem_range] at hp
  obtain ⟨i, _, j, _, rfl⟩ := hp
  rfl

/-- The instance of C4 on a board of two rows and three columns with edge
length `5`: six points, the one at index `1 * 3 + 2` being `(10, 5, 0)`. -/
theorem createKnownBoardPosition_rowMajor_witness :
    (createKnownBoardPosition (R := Int) ⟨3, 2⟩ 5 []).length = 6 ∧
    (createKnownBoardPosition (R := Int) ⟨3, 2⟩ 5 [])[1 * 3 + 2]? = some ⟨10, 5, 0⟩ :=
  ⟨(createKnownBoardPosition_rowMajor (R := Int) 2 3 5).1,
   (createKnownBoardPosition_rowMajor (R := Int) 2 3 5).2.1 1 2 (by decide) (by decide)⟩

/-! ## The intrinsic solve -/

theorem getChessboardCorners_all_found {Img R P2 F : Type} (lib : Vision Img R P2 F)
    (images : List Img) (acc : List (List P2)) (b : Bool)
    (hfound : ∀ image ∈ images, (lib.findChessboardCorners image ⟨9, 6⟩).1 = true) :
    getChessboardCorners lib images acc b =
      acc ++ images.map (fun image => (lib.findChessboardCorners image ⟨9, 6⟩).2) := by
  unfold getChessboardCorners
  induction images generalizing acc with
  | nil => simp
  | cons image images ih =>
    have h1 := hfound image (List.mem_cons_self _ _)
    have h2 : ∀ image ∈ images, (lib.findChessboardCorners image ⟨9, 6⟩).1 = true :=
      fun x hx => hfound x (List.mem_cons_of_mem _ hx)
    simp only [List.foldl_cons, h1, if_true, List.map_cons]
    rw [ih _ h2]
    simp

theorem vectorResize_singleton {α : Type} (n : Nat) (val : α) :
    vectorResize n val [val] = List.replicate n val := by
  unfold vectorResize
  cases n with
  | zero => simp
  | succ n =>
    cases n with
    | zero => simp
    | succ n =>
      have : ¬ (n + 1 + 1 ≤ [val].length) := by simp
      rw [if_neg this]
      simp [List.replicate_succ]

/-- C10.  When detection succeeds on every stored frame, the call that
`cameraCalibration` makes to the intrinsic solver carries one copy of the
pattern of `createKnownBoardPosition` per stored frame, as many image point
sets as stored frames, and an `8 x 1` distortion vector of zeros; what the
function leaves in its two matrices is what the solver returns on that
call. -/
theorem cameraCalibration_world_replicated {Img R P2 F : Type}
    [IntCast R] [Mul R] [Zero R] [Zero F]
    (lib : Vision Img R P2 F) (images : List Img) (boardSize : Size) (e : R)
    (cameraMatrix : Mat F)
    (hfound : ∀ image ∈ images, (lib.findChessboardCorners image ⟨9, 6⟩).1 = true) :
    (cameraCalibration lib images boardSize e cameraMatrix).1.objectPoints =
        List.replicate images.length (createKnownBoardPosition boardSize e []) ∧
    (cameraCalibration lib images boardSize e cameraMatrix).1.objectPoints.length =
        images.length ∧
    (cameraCalibration lib images boardSize e cameraMatrix).1.imagePoints.length =
        images.length ∧
    (∀ w ∈ (cameraCalibration lib images boardSize e cameraMatrix).1.objectPoints,
        w = createKnownBoardPosition boardSize e []) ∧
    (cameraCalibration lib images boardSize e cameraMatrix).1.distCoeffs =
        ⟨8, 1, List.replicate 8 0⟩ ∧
    (cameraCalibration lib images boardSize e cameraMatrix).2 =
        lib.calibrateCamera (cameraCalibration lib images boardSize e cameraMatrix).1 := by
  have hlen : (getChessboardCorners lib images [] false).length = images.length := by
    rw [getChessboardCorners_all_found lib images [] false hfound]
    simp
  have hobj : (cameraCalibration lib images boardSize e cameraMatrix).1.objectPoints =
      List.replicate images.length (createKnownBoardPosition boardSize e []) := by
    simp only [cameraCalibration, hlen, vectorResize_singleton]
  refine ⟨hobj, ?_, ?_, ?_, rfl, rfl⟩
  · rw [hobj, List.length_replicate]
  · simp only [cameraCalibration, hlen]
  · intro w hw
    rw [hobj] at hw
    exact List.eq_of_mem_replicate hw

/-! ## The capture loop -/

theorem toChar_13 : toChar 13 = 13 := by decide

theorem toChar_32 : toChar 32 = 32 := by decide

/-- C5.  On the solve key (code 13) a session with fewer than 11 accepted
frames is left exactly as it was: no solver call and no file enter the
trace, and the frame list and both matrices are unchanged.  With 11 frames or
more the solver is called on the stored frames. -/
theorem solve_needs_eleven_frames {Img R P2 F : Type} [IntCast R] [Mul R] [Zero R] [Zero F]
    (lib : Vision Img R P2 F) (dbg rotateImage : Bool) (calibSquareDim : R)
    (s : Session Img R P2 F) (t : Turn Img) (frame : Img)
    (hframe : t.frame = some frame) (hkey : t.key = 13) :
    (s.savedImages.length < 11 →
      loopBody lib dbg rotateImage calibSquareDim s t = (Status.running, s)) ∧
    (11 ≤ s.savedImages.length →
      ∃ rest, (loopBody lib dbg rotateImage calibSquareDim s t).2.effects =
        s.effects ++ Effect.calibrateCamera
          (cameraCalibration lib s.savedImages chessboardDim calibSquareDim
            s.cameraMatrix).1 :: rest) := by
  constructor
  · intro hlt
    have : ¬ (s.savedImages.length > 10) := by omega
    simp [loopBody, hframe, hkey, toChar_13, this]
  · intro hge
    have : s.savedImages.length > 10 := by omega
    simp only [loopBody, hframe, hkey, toChar_13, this, if_true]
    rw [if_neg (by decide)]
    split
    · exact ⟨[], by simp⟩
    · exact ⟨[], by simp⟩
    · exact ⟨_, List.append_assoc _ _ _⟩

/-- The instance of C5 on two sessions of the small library: with three
stored frames the solve key changes nothing, with twelve the trace grows by a
solver call. -/
theorem solve_needs_eleven_frames_witness :
    loopBody evenVision false false 1 (sessionOf [0, 2, 4]) (turnOf 6 13) =
      (Status.running, sessionOf [0, 2, 4]) ∧
    ∃ rest,
      (loopBody evenVision false false 1 (sessionOf (List.replicate 12 0)) (turnOf 6 13)).2.effects =
        (sessionOf (List.replicate 12 0)).effects ++ Effect.calibrateCamera
          (cameraCalibration evenVision (sessionOf (List.replicate 12 0)).savedImages
            chessboardDim 1 (sessionOf (List.replicate 12 0)).cameraMatrix).1 :: rest :=
  ⟨(solve_needs_eleven_frames evenVision false false 1 (sessionOf [0, 2, 4]) (turnOf 6 13) 6
      rfl rfl).1 (by decide),
   (solve_needs_eleven_frames evenVision false false 1 (sessionOf (List.replicate 12 0))
      (turnOf 6 13) 6 rfl rfl).2 (by decide)⟩

/-- The instance of C10 on three detected frames of the small library. -/
theorem cameraCalibration_world_replicated_witness :
    (cameraCalibration evenVision [0, 2, 4] ⟨2, 1⟩ 5 (Mat.zeros 0 0)).1.objectPoints =
        List.replicate 3 (createKnownBoardPosition ⟨2, 1⟩ 5 []) ∧
    (cameraCalibration evenVision [0, 2, 4] ⟨2, 1⟩ 5 (Mat.zeros 0 0)).1.distCoeffs =
        ⟨8, 1, List.replicate 8 0⟩ :=
  ⟨(cameraCalibration_world_replicated evenVision [0, 2, 4] ⟨2, 1⟩ 5 (Mat.zeros 0 0)
      (by decide)).1,
   (cameraCalibration_world_replicated evenVision [0, 2, 4] ⟨2, 1⟩ 5 (Mat.zeros 0 0)
      (by decide)).2.2.2.2.1⟩

/-- What a turn can do to a session: nothing; accept the first frame, which
names and creates the directory; accept a later frame; or solve. -/
theorem loopBody_cases {Img R P2 F : Type} [IntCast R] [Mul R] [Zero R] [Zero F]
    (lib : Vision Img R P2 F) (dbg rotateImage : Bool) (calibSquareDim : R)
    (s : Session Img R P2 F) (t : Turn Img) :
    (loopBody lib dbg rotateImage calibSquareDim s t).2 = s ∨
    (∃ frame, (lib.findChessboardCorners frame chessboardDim).1 = true ∧
      s.savedImages = [] ∧
      (loopBody lib dbg rotateImage calibSquareDim s t).2 =
        { s with
          savedImages := [frame]
          directoryName := "../" ++ t.now
          effects := s.effects ++
            [Effect.createDirectory ("../" ++ t.now),
             Effect.imwrite ("../" ++ t.now ++ "/" ++ toString 1 ++ ".png") frame] }) ∨
    (∃ frame, (lib.findChessboardCorners frame chessboardDim).1 = true ∧
      s.savedImages ≠ [] ∧
      (loopBody lib dbg rotateImage calibSquareDim s t).2 =
        { s with
          savedImages := s.savedImages ++ [frame]
          effects := s.effects ++
            [Effect.imwrite
              (s.directoryName ++ "/" ++ toString (s.savedImages.length + 1) ++ ".png")
              frame] }) ∨
    (10 < s.savedImages.length ∧
      (loopBody lib dbg rotateImage calibSquareDim s t).2.savedImages = s.savedImages ∧
      (loopBody lib dbg rotateImage calibSquareDim s t).2.directoryName = s.directoryName ∧
      ∃ rest, (loopBody lib dbg rotateImage calibSquareDim s t).2.effects = s.effects ++ rest ∧
        ∀ e ∈ rest, e.inDirectory s.directoryName) := by
  unfold loopBody
  cases hf : t.frame with
  | none => exact Or.inl rfl
  | some frame0 =>
    simp only
    by_cases h32 : toChar t.key = 32
    · rw [if_pos h32]
      by_cases hfound :
          (lib.findChessboardCorners (if rotateImage = true then lib.rotate frame0 else frame0)
            chessboardDim).1 = true
      · rw [if_pos hfound]
        by_cases hempty : s.savedImages = []
        · refine Or.inr (Or.inl ⟨_, hfound, hempty, ?_⟩)
          simp [hempty]
        · refine Or.inr (Or.inr (Or.inl ⟨_, hfound, hempty, ?_⟩))
          have hlen : ¬ (s.savedImages.length + 1 = 1) := by
            have := List.length_pos.mpr hempty
            omega
          simp [hlen, hempty]
      · rw [if_neg hfound]
        exact Or.inl rfl
    · rw [if_neg h32]
      by_cases h13 : toChar t.key = 13
      · rw [if_pos h13]
        by_cases hlen : s.savedImages.length > 10
        · rw [if_pos hlen]
          refine Or.inr (Or.inr (Or.inr ⟨hlen, ?_⟩))
          split
          · exact ⟨rfl, rfl, [_], rfl, by simp [Effect.inDirectory]⟩
          · exact ⟨rfl, rfl, [_], rfl, by simp [Effect.inDirectory]⟩
          · refine ⟨rfl, rfl, _, List.append_assoc _ _ _, ?_⟩
            intro e he
            simp only [List.mem_append, List.mem_singleton] at he
            rcases he with rfl | rfl <;> simp [Effect.inDirectory]
        · rw [if_neg hlen]
          exact Or.inl rfl
      · rw [if_neg h13]
        split <;> exact Or.inl rfl

/-- C6.  On the capture key (code 32) exactly one frame, the current one, is
appended to the accepted frames when detection on it succeeded, and the
session (frame list and directory name included) is left as it was when
detection failed.  Hence a turn keeps the frame list free of undetected
frames, and so does every run of `cameraCalibrationProcess`. -/
theorem capture_accepts_only_detected {Img R P2 F : Type}
    [IntCast R] [Mul R] [Zero R] [Zero F]
    (lib : Vision Img R P2 F) (dbg rotateImage : Bool) (calibSquareDim : R)
    (s : Session Img R P2 F) (t : Turn Img) (frame0 : Img)
    (hframe : t.frame = some frame0) (hkey : t.key = 32) :
    ((lib.findChessboardCorners (if rotateImage then lib.rotate frame0 else frame0)
        chessboardDim).1 = true →
      (loopBody lib dbg rotateImage calibSquareDim s t).2.savedImages =
        s.savedImages ++ [if rotateImage then lib.rotate frame0 else frame0]) ∧
    ((lib.findChessboardCorners (if rotateImage then lib.rotate frame0 else frame0)
        chessboardDim).1 = false →
      loopBody lib dbg rotateImage calibSquareDim s t = (Status.running, s)) ∧
    ((∀ image ∈ s.savedImages, (lib.findChessboardCorners image chessboardDim).1 = true) →
      ∀ image ∈ (loopBody lib dbg rotateImage calibSquareDim s t).2.savedImages,
        (lib.findChessboardCorners image chessboardDim).1 = true) ∧
    ∀ (directoryName : String) (cameraMatrix distanceCoefficients : Mat F)
      (turns : List (Turn Img)),
      ∀ image ∈ (cameraCalibrationProcess lib dbg rotateImage calibSquareDim directoryName
          cameraMatrix distanceCoefficients turns).2.savedImages,
        (lib.findChessboardCorners image chessboardDim).1 = true := by
  have step : ∀ (s : Session Img R P2 F) (t : Turn Img),
      (∀ image ∈ s.savedImages, (lib.findChessboardCorners image chessboardDim).1 = true) →
      ∀ image ∈ (loopBody lib dbg rotateImage calibSquareDim s t).2.savedImages,
        (lib.findChessboardCorners image chessboardDim).1 = true := by
    intro s t hall
    rcases loopBody_cases lib dbg rotateImage calibSquareDim s t with
      h | ⟨frame, hfound, _, h⟩ | ⟨frame, hfound, _, h⟩ | ⟨_, h, _⟩
    · rw [h]; exact hall
    · rw [h]
      intro image himage
      simp only [List.mem_singleton] at himage
      rw [himage]; exact hfound
    · rw [h]
      intro image himage
      simp only [List.mem_append, List.mem_singleton] at himage
      rcases himage with himage | himage
      · exact hall image himage
      · rw [himage]; exact hfound
    · rw [h]; exact hall
  have run : ∀ (turns : List (Turn Img)) (s : Session Img R P2 F),
      (∀ image ∈ s.savedImages, (lib.findChessboardCorners image chessboardDim).1 = true) →
      ∀ image ∈ (captureLoop lib dbg rotateImage calibSquareDim s turns).2.savedImages,
        (lib.findChessboardCorners image chessboardDim).1 = true := by
    intro turns
    induction turns with
    | nil => intro s hall; exact hall
    | cons t turns ih =>
      intro s hall
      have hstep := step s t hall
      unfold captureLoop
      rcases hb : loopBody lib dbg rotateImage calibSquareDim s t with ⟨st, s1⟩
      rw [hb] at hstep
      cases st with
      | running => exact ih s1 hstep
      | returned => exact hstep
      | aborted => exact hstep
  refine ⟨?_, ?_, step s t, ?_⟩
  · intro hfound
    simp [loopBody, hframe, hkey, toChar_32, hfound]
  · intro hfound
    simp [loopBody, hframe, hkey, toChar_32, hfound]
  · intro directoryName cameraMatrix distanceCoefficients turns
    exact run turns _ (by simp)

/-- The instance of C6 on the small library: the even frame `4` is appended,
the odd frame `5` is not. -/
theorem capture_accepts_only_detected_witness :
    (loopBody evenVision false false 1 (sessionOf [0, 2]) (turnOf 4 32)).2.savedImages =
      [0, 2] ++ [4] ∧
    loopBody evenVision false false 1 (sessionOf [0, 2]) (turnOf 5 32) =
      (Status.running, sessionOf [0, 2]) :=
  ⟨(capture_accepts_only_detected evenVision false false 1 (sessionOf [0, 2]) (turnOf 4 32) 4
      rfl rfl).1 (by decide),
   (capture_accepts_only_detected evenVision false false 1 (sessionOf [0, 2]) (turnOf 5 32) 5
      rfl rfl).2.1 (by decide)⟩

theorem loopBody_oneDirectory {Img R P2 F : Type} [IntCast R] [Mul R] [Zero R] [Zero F]
    (lib : Vision Img R P2 F) (dbg rotateImage : Bool) (calibSquareDim : R) (dir0 : String)
    (s : Session Img R P2 F) (t : Turn Img) (h : s.OneDirectory dir0) :
    (loopBody lib dbg rotateImage calibSquareDim s t).2.OneDirectory dir0 := by
  rcases loopBody_cases lib dbg rotateImage calibSquareDim s t with
    hb | ⟨frame, _, hempty, hb⟩ | ⟨frame, _, hne, hb⟩ | ⟨hlen, hsaved, hdir, rest, heff, hrest⟩
  · rw [hb]; exact h
  · rcases h with ⟨_, heff, _⟩ | ⟨image, rest, hhead, _, _⟩
    · refine Or.inr ⟨frame, [], ?_, ?_, ?_⟩
      · rw [hb]; rfl
      · rw [hb, heff]; rfl
      · intro e he; cases he
    · rw [hempty] at hhead; cases hhead
  · rcases h with ⟨hempty, _, _⟩ | ⟨image, rest, hhead, heff, hrest⟩
    · exact absurd hempty hne
    · refine Or.inr ⟨image, rest ++ [Effect.imwrite
        (s.directoryName ++ "/" ++ toString (s.savedImages.length + 1) ++ ".png") frame],
        ?_, ?_, ?_⟩
      · rw [hb]
        cases hs : s.savedImages with
        | nil => rw [hs] at hhead; cases hhead
        | cons a l => rw [hs] at hhead; simpa using hhead
      · rw [hb]; simp only; rw [heff]; rfl
      · rw [hb]
        intro e he
        simp only [List.mem_append, List.mem_singleton] at he
        rcases he with he | rfl
        · exact hrest e he
        · exact ⟨_, rfl⟩
  · rcases h with ⟨hempty, _, _⟩ | ⟨image, rest0, hhead, heff0, hrest0⟩
    · rw [hempty] at hlen; simp at hlen
    · refine Or.inr ⟨image, rest0 ++ rest, ?_, ?_, ?_⟩
      · rw [hsaved]; exact hhead
      · rw [heff, hdir, heff0]; rfl
      · rw [hdir]
        intro e he
        rcases List.mem_append.mp he with he | he
        · exact hrest0 e he
        · exact hrest e he

theorem captureLoop_oneDirectory {Img R P2 F : Type} [IntCast R] [Mul R] [Zero R] [Zero F]
    (lib : Vision Img R P2 F) (dbg rotateImage : Bool) (calibSquareDim : R) (dir0 : String)
    (turns : List (Turn Img)) (s : Session Img R P2 F) (h : s.OneDirectory dir0) :
    (captureLoop lib dbg rotateImage calibSquareDim s turns).2.OneDirectory dir0 := by
  induction turns generalizing s with
  | nil => exact h
  | cons t turns ih =>
    have hstep := loopBody_oneDirectory lib dbg rotateImage calibSquareDim dir0 s t h
    unfold captureLoop
    rcases hb : loopBody lib dbg rotateImage calibSquareDim s t with ⟨st, s1⟩
    rw [hb] at hstep
    cases st with
    | running => exact ih s1 hstep
    | returned => exact hstep
    | aborted => exact hstep

/-- Once a frame is stored, a turn keeps the directory name, and what it adds
to the trace stays inside that directory. -/
theorem loopBody_later {Img R P2 F : Type} [IntCast R] [Mul R] [Zero R] [Zero F]
    (lib : Vision Img R P2 F) (dbg rotateImage : Bool) (calibSquareDim : R)
    (s : Session Img R P2 F) (t : Turn Img) (hne : s.savedImages ≠ []) :
    (loopBody lib dbg rotateImage calibSquareDim s t).2.savedImages ≠ [] ∧
    (loopBody lib dbg rotateImage calibSquareDim s t).2.directoryName = s.directoryName ∧
    ∃ rest, (loopBody lib dbg rotateImage calibSquareDim s t).2.effects = s.effects ++ rest ∧
      ∀ e ∈ rest, e.inDirectory s.directoryName := by
  rcases loopBody_cases lib dbg rotateImage calibSquareDim s t with
    hb | ⟨frame, _, hempty, _⟩ | ⟨frame, _, _, hb⟩ | ⟨_, hsaved, hdir, rest, heff, hrest⟩
  · rw [hb]; exact ⟨hne, rfl, [], by simp, by simp⟩
  · exact absurd hempty hne
  · rw [hb]
    refine ⟨by simp, rfl, [_], rfl, ?_⟩
    intro e he
    simp only [List.mem_singleton] at he
    rw [he]; exact ⟨_, rfl⟩
  · exact ⟨by rw [hsaved]; exact hne, hdir, rest, heff, hrest⟩

theorem captureLoop_later {Img R P2 F : Type} [IntCast R] [Mul R] [Zero R] [Zero F]
    (lib : Vision Img R P2 F) (dbg rotateImage : Bool) (calibSquareDim : R)
    (turns : List (Turn Img)) (s : Session Img R P2 F) (hne : s.savedImages ≠ []) :
    (captureLoop lib dbg rotateImage calibSquareDim s turns).2.directoryName = s.directoryName ∧
    ∃ rest, (captureLoop lib dbg rotateImage calibSquareDim s turns).2.effects =
        s.effects ++ rest ∧
      ∀ e ∈ rest, e.inDirectory s.directoryName := by
  induction turns generalizing s with
  | nil => exact ⟨rfl, [], by simp [captureLoop], by simp⟩
  | cons t turns ih =>
    obtain ⟨hne1, hdir1, rest1, heff1, hrest1⟩ :=
      loopBody_later lib dbg rotateImage calibSquareDim s t hne
    unfold captureLoop
    rcases hb : loopBody lib dbg rotateImage calibSquareDim s t with ⟨st, s1⟩
    rw [hb] at hne1 hdir1 heff1
    simp only at hne1 hdir1 heff1
    cases st with
    | running =>
      obtain ⟨hdir2, rest2, heff2, hrest2⟩ := ih s1 hne1
      refine ⟨by rw [hdir2, hdir1], rest1 ++ rest2, by rw [heff2, heff1, List.append_assoc], ?_⟩
      intro e he
      rcases List.mem_append.mp he with he | he
      · exact hrest1 e he
      · rw [← hdir1]; exact hrest2 e he
    | returned => exact ⟨hdir1, rest1, heff1, hrest1⟩
    | aborted => exact ⟨hdir1, rest1, heff1, hrest1⟩

theorem captureLoop_cons {Img R P2 F : Type} [IntCast R] [Mul R] [Zero R] [Zero F]
    (lib : Vision Img R P2 F) (dbg rotateImage : Bool) (calibSquareDim : R)
    (t : Turn Img) (turns : List (Turn Img)) (s : Session Img R P2 F) :
    captureLoop lib dbg rotateImage calibSquareDim s (t :: turns) =
      match loopBody lib dbg rotateImage calibSquareDim s t with
      | (Status.running, s1) => captureLoop lib dbg rotateImage calibSquareDim s1 turns
      | r => r := by
  rw [captureLoop]

theorem captureLoop_append {Img R P2 F : Type} [IntCast R] [Mul R] [Zero R] [Zero F]
    (lib : Vision Img R P2 F) (dbg rotateImage : Bool) (calibSquareDim : R)
    (turns more : List (Turn Img)) (s : Session Img R P2 F) :
    captureLoop lib dbg rotateImage calibSquareDim s (turns ++ more) =
      if (captureLoop lib dbg rotateImage calibSquareDim s turns).1 = Status.running then
        captureLoop lib dbg rotateImage calibSquareDim
          (captureLoop lib dbg rotateImage calibSquareDim s turns).2 more
      else captureLoop lib dbg rotateImage calibSquareDim s turns := by
  induction turns generalizing s with
  | nil => simp [captureLoop]
  | cons t turns ih =>
    simp only [List.cons_append, captureLoop_cons]
    rcases hb : loopBody lib dbg rotateImage calibSquareDim s t with ⟨st, s1⟩
    cases st with
    | running => exact ih s1
    | returned => simp
    | aborted => simp

/-- The capture key on a session with no stored frame, detection having
succeeded: the frame is stored, the directory is named `"../"` followed by
the time stamp of the turn and created, and the frame is written there as
image `1`. -/
theorem loopBody_first_accept {Img R P2 F : Type} [IntCast R] [Mul R] [Zero R] [Zero F]
    (lib : Vision Img R P2 F) (dbg rotateImage : Bool) (calibSquareDim : R)
    (s : Session Img R P2 F) (t : Turn Img) (frame0 : Img)
    (hempty : s.savedImages = []) (hframe : t.frame = some frame0) (hkey : t.key = 32)
    (hfound : (lib.findChessboardCorners (if rotateImage then lib.rotate frame0 else frame0)
      chessboardDim).1 = true) :
    loopBody lib dbg rotateImage calibSquareDim s t =
      (Status.running,
        { s with
          savedImages := [if rotateImage then lib.rotate frame0 else frame0]
          directoryName := "../" ++ t.now
          effects := s.effects ++
            [Effect.createDirectory ("../" ++ t.now),
             Effect.imwrite ("../" ++ t.now ++ "/" ++ toString 1 ++ ".png")
               (if rotateImage then lib.rotate frame0 else frame0)] }) := by
  simp [loopBody, hframe, hkey, toChar_32, hfound, hempty]

/-- A turn that leaves a session without stored frame leaves all of it as it
was. -/
theorem loopBody_idle {Img R P2 F : Type} [IntCast R] [Mul R] [Zero R] [Zero F]
    (lib : Vision Img R P2 F) (dbg rotateImage : Bool) (calibSquareDim : R)
    (s : Session Img R P2 F) (t : Turn Img) (hempty : s.savedImages = [])
    (hstill : (loopBody lib dbg rotateImage calibSquareDim s t).2.savedImages = []) :
    (loopBody lib dbg rotateImage calibSquareDim s t).2 = s := by
  rcases loopBody_cases lib dbg rotateImage calibSquareDim s t with
    hb | ⟨frame, _, _, hb⟩ | ⟨frame, _, hne, _⟩ | ⟨hlen, _⟩
  · exact hb
  · rw [hb] at hstill; cases hstill
  · exact absurd hempty hne
  · rw [hempty] at hlen; simp at hlen

/-- A run whose first accepted frame comes in turn `t`: the directory is the
one named after the time stamp of `t`, the trace opens with its creation and
the image of that frame, and everything after stays inside it. -/
theorem captureLoop_first_accept {Img R P2 F : Type} [IntCast R] [Mul R] [Zero R] [Zero F]
    (lib : Vision Img R P2 F) (dbg rotateImage : Bool) (calibSquareDim : R)
    (s0 : Session Img R P2 F) (hempty0 : s0.savedImages = []) (heff0 : s0.effects = [])
    (before after : List (Turn Img)) (t : Turn Img) (frame0 : Img)
    (hrun : (captureLoop lib dbg rotateImage calibSquareDim s0 before).1 = Status.running)
    (hnone : (captureLoop lib dbg rotateImage calibSquareDim s0 before).2.savedImages = [])
    (hframe : t.frame = some frame0) (hkey : t.key = 32)
    (hfound : (lib.findChessboardCorners (if rotateImage then lib.rotate frame0 else frame0)
      chessboardDim).1 = true) :
    (captureLoop lib dbg rotateImage calibSquareDim s0 (before ++ t :: after)).2.directoryName =
      "../" ++ t.now ∧
    ∃ rest,
      (captureLoop lib dbg rotateImage calibSquareDim s0 (before ++ t :: after)).2.effects =
        Effect.createDirectory ("../" ++ t.now) ::
          Effect.imwrite ("../" ++ t.now ++ "/" ++ toString 1 ++ ".png")
            (if rotateImage then lib.rotate frame0 else frame0) :: rest ∧
      ∀ e ∈ rest, e.inDirectory ("../" ++ t.now) := by
  have hinv := captureLoop_oneDirectory lib dbg rotateImage calibSquareDim s0.directoryName
    before s0 (Or.inl ⟨hempty0, heff0, rfl⟩)
  have heff : (captureLoop lib dbg rotateImage calibSquareDim s0 before).2.effects = [] := by
    rcases hinv with ⟨_, h, _⟩ | ⟨image, rest, hhead, _, _⟩
    · exact h
    · rw [hnone] at hhead; cases hhead
  rw [captureLoop_append, if_pos hrun, captureLoop_cons,
    loopBody_first_accept lib dbg rotateImage calibSquareDim _ t frame0 hnone hframe hkey hfound]
  simp only
  obtain ⟨hdir, rest, hrest, hunder⟩ :=
    captureLoop_later lib dbg rotateImage calibSquareDim after
      { (captureLoop lib dbg rotateImage calibSquareDim s0 before).2 with
        savedImages := [if rotateImage then lib.rotate frame0 else frame0]
        directoryName := "../" ++ t.now
        effects := (captureLoop lib dbg rotateImage calibSquareDim s0 before).2.effects ++
          [Effect.createDirectory ("../" ++ t.now),
           Effect.imwrite ("../" ++ t.now ++ "/" ++ toString 1 ++ ".png")
             (if rotateImage then lib.rotate frame0 else frame0)] }
      (by simp)
  refine ⟨hdir, rest, ?_, hunder⟩
  rw [hrest, heff]
  rfl

/-- C7.  The session directory is named and created by the first successful
accept and by no other turn.

* A capture key (code 32) with successful detection on a session without
  stored frame stores the frame, sets the directory name to `"../"` followed
  by the time stamp of that turn, creates that directory and writes the frame
  there as image `1`.
* A turn that stores nothing in a session without stored frame changes
  nothing: no name is set and no directory is created before the first
  accept.
* Once a frame is stored, a turn keeps the directory name, creates no
  directory, and writes frame images and the result file only inside it.
* Hence in a run from the empty session in which the first successful accept
  comes in turn `t`, the final directory name is the one of `t`, the trace
  opens with the creation of that directory and the image of that frame, no
  later effect creates a directory, and every later frame image and result
  file lies in it.
* In every run from the empty session either nothing was accepted and nothing
  was created, or the trace has that shape; and however the run is continued
  after a stored frame, the directory name stays the same and no directory is
  created any more. -/
theorem session_directory_created_once {Img R P2 F : Type}
    [IntCast R] [Mul R] [Zero R] [Zero F]
    (lib : Vision Img R P2 F) (dbg rotateImage : Bool) (calibSquareDim : R)
    (dir0 : String) (cameraMatrix distanceCoefficients : Mat F)
    (turns : List (Turn Img)) :
    (∀ (s : Session Img R P2 F) (t : Turn Img) (frame0 : Img),
      s.savedImages = [] → t.frame = some frame0 → t.key = 32 →
      (lib.findChessboardCorners (if rotateImage then lib.rotate frame0 else frame0)
        chessboardDim).1 = true →
      loopBody lib dbg rotateImage calibSquareDim s t =
        (Status.running,
          { s with
            savedImages := [if rotateImage then lib.rotate frame0 else frame0]
            directoryName := "../" ++ t.now
            effects := s.effects ++
              [Effect.createDirectory ("../" ++ t.now),
               Effect.imwrite ("../" ++ t.now ++ "/" ++ toString 1 ++ ".png")
                 (if rotateImage then lib.rotate frame0 else frame0)] })) ∧
    (∀ (s : Session Img R P2 F) (t : Turn Img),
      s.savedImages = [] →
      (loopBody lib dbg rotateImage calibSquareDim s t).2.savedImages = [] →
      (loopBody lib dbg rotateImage calibSquareDim s t).2 = s) ∧
    (∀ (s : Session Img R P2 F) (t : Turn Img),
      s.savedImages ≠ [] →
      (loopBody lib dbg rotateImage calibSquareDim s t).2.savedImages ≠ [] ∧
      (loopBody lib dbg rotateImage calibSquareDim s t).2.directoryName = s.directoryName ∧
      ∃ rest, (loopBody lib dbg rotateImage calibSquareDim s t).2.effects = s.effects ++ rest ∧
        ∀ e ∈ rest, e.inDirectory s.directoryName) ∧
    (∀ (before after : List (Turn Img)) (t : Turn Img) (frame0 : Img),
      turns = before ++ t :: after →
      (cameraCalibrationProcess lib dbg rotateImage calibSquareDim dir0 cameraMatrix
        distanceCoefficients before).1 = Status.running →
      (cameraCalibrationProcess lib dbg rotateImage calibSquareDim dir0 cameraMatrix
        distanceCoefficients before).2.savedImages = [] →
      t.frame = some frame0 → t.key = 32 →
      (lib.findChessboardCorners (if rotateImage then lib.rotate frame0 else frame0)
        chessboardDim).1 = true →
      (cameraCalibrationProcess lib dbg rotateImage calibSquareDim dir0 cameraMatrix
        distanceCoefficients turns).2.directoryName = "../" ++ t.now ∧
      ∃ rest,
        (cameraCalibrationProcess lib dbg rotateImage calibSquareDim dir0 cameraMatrix
          distanceCoefficients turns).2.effects =
          Effect.createDirectory ("../" ++ t.now) ::
            Effect.imwrite ("../" ++ t.now ++ "/" ++ toString 1 ++ ".png")
              (if rotateImage then lib.rotate frame0 else frame0) :: rest ∧
        ∀ e ∈ rest, e.inDirectory ("../" ++ t.now)) ∧
    (cameraCalibrationProcess lib dbg rotateImage calibSquareDim dir0 cameraMatrix
        distanceCoefficients turns).2.OneDirectory dir0 ∧
    ∀ more : List (Turn Img),
      (cameraCalibrationProcess lib dbg rotateImage calibSquareDim dir0 cameraMatrix
        distanceCoefficients turns).2.savedImages ≠ [] →
      (cameraCalibrationProcess lib dbg rotateImage calibSquareDim dir0 cameraMatrix
          distanceCoefficients (turns ++ more)).2.directoryName =
        (cameraCalibrationProcess lib dbg rotateImage calibSquareDim dir0 cameraMatrix
          distanceCoefficients turns).2.directoryName ∧
      ∃ rest,
        (cameraCalibrationProcess lib dbg rotateImage calibSquareDim dir0 cameraMatrix
            distanceCoefficients (turns ++ more)).2.effects =
          (cameraCalibrationProcess lib dbg rotateImage calibSquareDim dir0 cameraMatrix
            distanceCoefficients turns).2.effects ++ rest ∧
        ∀ e ∈ rest, e.inDirectory
          (cameraCalibrationProcess lib dbg rotateImage calibSquareDim dir0 cameraMatrix
            distanceCoefficients turns).2.directoryName := by
  refine ⟨?_, ?_, ?_, ?_, ?_, ?_⟩
  · intro s t frame0 hempty hframe hkey hfound
    exact loopBody_first_accept lib dbg rotateImage calibSquareDim s t frame0 hempty hframe hkey
      hfound
  · intro s t hempty hstill
    exact loopBody_idle lib dbg rotateImage calibSquareDim s t hempty hstill
  · intro s t hne
    exact loopBody_later lib dbg rotateImage calibSquareDim s t hne
  · intro before after t frame0 hturns hrun hnone hframe hkey hfound
    subst hturns
    exact captureLoop_first_accept lib dbg rotateImage calibSquareDim _ rfl rfl before after t
      frame0 hrun hnone hframe hkey hfound
  · exact captureLoop_oneDirectory lib dbg rotateImage calibSquareDim dir0 turns _
      (Or.inl ⟨rfl, rfl, rfl⟩)
  · intro more hne
    unfold cameraCalibrationProcess at hne ⊢
    rw [captureLoop_append]
    split
    · exact captureLoop_later lib dbg rotateImage calibSquareDim more _ hne
    · exact ⟨rfl, [], by simp, by simp⟩

/-- The instance of C7 on a run of the small library: the odd frame `1` is
refused, the frame `0` is the first one accepted, at time stamp `a`, and two
more frames are accepted at later time stamps.  The directory is `../a`, it
is created once, at the head of the trace, and it is still the directory when
the run is continued. -/
theorem session_directory_created_once_witness :
    ((cameraCalibrationProcess evenVision false false 1 "" (Mat.zeros 0 0) (Mat.zeros 0 0)
        [⟨some 1, 32, "z", true⟩, ⟨some 0, 32, "a", true⟩, ⟨some 2, 32, "b", true⟩]).2.directoryName =
      "../" ++ "a" ∧
    ∃ rest,
      (cameraCalibrationProcess evenVision false false 1 "" (Mat.zeros 0 0) (Mat.zeros 0 0)
          [⟨some 1, 32, "z", true⟩, ⟨some 0, 32, "a", true⟩, ⟨some 2, 32, "b", true⟩]).2.effects =
        Effect.createDirectory ("../" ++ "a") ::
          Effect.imwrite ("../" ++ "a" ++ "/" ++ toString 1 ++ ".png")
            (if false = true then evenVision.rotate 0 else 0) :: rest ∧
      ∀ e ∈ rest, e.inDirectory ("../" ++ "a")) ∧
    (cameraCalibrationProcess evenVision false false 1 "" (Mat.zeros 0 0) (Mat.zeros 0 0)
        ([⟨some 1, 32, "z", true⟩, ⟨some 0, 32, "a", true⟩, ⟨some 2, 32, "b", true⟩] ++
          [⟨some 4, 32, "c", true⟩])).2.directoryName =
      (cameraCalibrationProcess evenVision false false 1 "" (Mat.zeros 0 0) (Mat.zeros 0 0)
        [⟨some 1, 32, "z", true⟩, ⟨some 0, 32, "a", true⟩, ⟨some 2, 32, "b", true⟩]).2.directoryName :=
  ⟨(session_directory_created_once evenVision false false 1 "" (Mat.zeros 0 0) (Mat.zeros 0 0)
      [⟨some 1, 32, "z", true⟩, ⟨some 0, 32, "a", true⟩, ⟨some 2, 32, "b", true⟩]).2.2.2.1
      [⟨some 1, 32, "z", true⟩] [⟨some 2, 32, "b", true⟩] ⟨some 0, 32, "a", true⟩ 0
      rfl (by decide) (by decide) rfl rfl (by decide),
   ((session_directory_created_once evenVision false false 1 "" (Mat.zeros 0 0) (Mat.zeros 0 0)
      [⟨some 1, 32, "z", true⟩, ⟨some 0, 32, "a", true⟩, ⟨some 2, 32, "b", true⟩]).2.2.2.2.2
      [⟨some 4, 32, "c", true⟩] (by decide)).1⟩

/-! ## The matrix codec: writing -/

theorem unlines_append (a b : List (List Char)) : unlines (a ++ b) = unlines a ++ unlines b := by
  simp [unlines]

theorem unlines_singleton (l : List Char) : unlines [l] = l ++ endl := by
  simp [unlines]

theorem Mat.getAt_eq {F : Type} (dbg : Bool) (m : Mat F) (r c : Nat)
    (hr : r < m.rows) (hc : c < m.cols) : m.getAt dbg r c = m.data[r * m.cols + c]? := by
  simp [Mat.getAt, Mat.inRange, hr, hc]

theorem Mat.index_lt {F : Type} (m : Mat F) (hwf : m.WF) (r c : Nat)
    (hr : r < m.rows) (hc : c < m.cols) : r * m.cols + c < m.data.length := by
  rw [hwf]
  calc r * m.cols + c < r * m.cols + m.cols := by omega
    _ = (r + 1) * m.cols := by ring
    _ ≤ m.rows * m.cols := Nat.mul_le_mul_right _ hr

/-- The inner loop of the writing block on row `r`, stopped after `k`
columns. -/
theorem writeRow_eq {F : Type} (dbg : Bool) (fmt : F → List Char) (m : Mat F) (hwf : m.WF)
    (r : Nat) (hr : r < m.rows) (k : Nat) (hk : k ≤ m.cols) (out : List Char) :
    (List.range k).foldlM
        (fun out c => do
          let value ← m.getAt dbg r c
          some (out ++ fmt value ++ endl))
        out =
      some (out ++ unlines (((m.data.drop (r * m.cols)).take k).map fmt)) := by
  induction k with
  | zero => simp [unlines]
  | succ k ih =>
    have hlt := Mat.index_lt m hwf r k hr (by omega)
    rw [List.range_succ, List.foldlM_append, ih (by omega)]
    simp only [Option.some_bind, Option.bind_eq_bind, List.foldlM_cons, List.foldlM_nil]
    rw [Mat.getAt_eq dbg m r k hr (by omega), List.getElem?_eq_getElem hlt]
    simp only [Option.some_bind, Option.pure_def, Option.bind_some]
    rw [List.take_succ, List.getElem?_drop, List.getElem?_eq_getElem hlt]
    simp [unlines_append, unlines_singleton]

/-- The two loops of the writing block, stopped after `k` rows of `n`
columns each. -/
theorem writeRows_eq {F : Type} (dbg : Bool) (fmt : F → List Char) (m : Mat F) (hwf : m.WF)
    (n : Nat) (hn : n ≤ m.cols) (k : Nat) (hk : k ≤ m.rows) (out : List Char) :
    (List.range k).foldlM
        (fun out r =>
          (List.range n).foldlM
            (fun out c => do
              let value ← m.getAt dbg r c
              some (out ++ fmt value ++ endl))
            out)
        out =
      some (out ++ unlines ((List.range k).flatMap (fun r =>
        ((m.data.drop (r * m.cols)).take n).map fmt))) := by
  induction k with
  | zero => simp [unlines]
  | succ k ih =>
    rw [List.range_succ, List.foldlM_append, ih (by omega)]
    simp only [Option.some_bind, Option.bind_eq_bind, List.foldlM_cons, List.foldlM_nil]
    have h := fun o => writeRow_eq dbg fmt m hwf k (by omega) n hn o
    simp only [Option.bind_eq_bind] at h
    rw [h]
    simp [unlines_append]

theorem writeMat_eq {F : Type} (dbg : Bool) (fmt : F → List Char) (m : Mat F) (hwf : m.WF)
    (out : List Char) :
    writeMat dbg fmt m out =
      some (out ++ unlines (showU16 (m.rows % 65536) :: showU16 (m.cols % 65536) ::
        (List.range (m.rows % 65536)).flatMap (fun r =>
          ((m.data.drop (r * m.cols)).take (m.cols % 65536)).map fmt))) := by
  unfold writeMat
  simp only
  rw [writeRows_eq dbg fmt m hwf (m.cols % 65536) (Nat.mod_le _ _) (m.rows % 65536)
    (Nat.mod_le _ _)]
  simp [unlines, List.append_assoc]

/-- Cutting a buffer into `k` consecutive rows of `n` elements and gluing
them again gives its first `k * n` elements. -/
theorem flatMap_rows {α : Type} (data : List α) (n k : Nat) :
    (List.range k).flatMap (fun r => (data.drop (r * n)).take n) = data.take (k * n) := by
  induction k with
  | zero => simp
  | succ k ih =>
    rw [List.range_succ, List.flatMap_append, ih, Nat.succ_mul, List.take_add]
    simp

theorem flatMap_rows_map {α β : Type} (f : α → β) (data : List α) (n k : Nat) :
    (List.range k).flatMap (fun r => ((data.drop (r * n)).take n).map f) =
      (data.take (k * n)).map f := by
  rw [← flatMap_rows data n k, List.map_flatMap]

/-- The writing block on a matrix whose counts fit sixteen bits: the two
counts, then the buffer, one element a line. -/
theorem writeMat_small {F : Type} (dbg : Bool) (fmt : F → List Char) (m : Mat F) (hwf : m.WF)
    (hr : m.rows < 65536) (hc : m.cols < 65536) (out : List Char) :
    writeMat dbg fmt m out =
      some (out ++ unlines (showU16 m.rows :: showU16 m.cols :: m.data.map fmt)) := by
  rw [writeMat_eq dbg fmt m hwf, Nat.mod_eq_of_lt hr, Nat.mod_eq_of_lt hc, flatMap_rows_map,
    ← hwf, List.take_length]

theorem getElem?_map_data {F : Type} (dbg : Bool) (fmt : F → List Char) (m : Mat F)
    (i j : Nat) (hi : i < m.rows) (hj : j < m.cols) :
    (m.data.map fmt)[i * m.cols + j]? = (m.getAt dbg i j).map fmt := by
  rw [Mat.getAt_eq dbg m i j hi hj, List.getElem?_map]

/-- The file `saveCameraCalibration` writes for matrices whose counts fit
sixteen bits. -/
theorem saveCameraCalibration_small {F : Type} (dbg : Bool) (fmt : F → List Char)
    (M D : Mat F) (hM : M.WF) (hD : D.WF)
    (hMr : M.rows < 65536) (hMc : M.cols < 65536)
    (hDr : D.rows < 65536) (hDc : D.cols < 65536) :
    saveCameraCalibration dbg fmt true M D =
      some (true, some (unlines
        ([showU16 M.rows, showU16 M.cols] ++ M.data.map fmt ++
         [showU16 D.rows, showU16 D.cols] ++ D.data.map fmt))) := by
  unfold saveCameraCalibration
  simp only [if_true, Option.bind_eq_bind]
  rw [writeMat_small dbg fmt M hM hMr hMc]
  simp only [Option.some_bind]
  rw [writeMat_small dbg fmt D hD hDr hDc]
  simp [unlines_append, unlines]

/-- C2, amended.  For matrices whose row and column counts are below
`65536`, the file `saveCameraCalibration` writes is: a line holding the row
count of the camera matrix, a line holding its column count, then one line
per element, the element at `(i, j)` on value line `i * cols + j`; then the
distortion matrix in the same layout.  For a `3 x 3` camera matrix the text
starts with the lines `3` and `3`. -/
theorem saveCameraCalibration_layout {F : Type} (dbg : Bool) (fmt : F → List Char)
    (M D : Mat F) (hM : M.WF) (hD : D.WF)
    (hMr : M.rows < 65536) (hMc : M.cols < 65536)
    (hDr : D.rows < 65536) (hDc : D.cols < 65536) :
    saveCameraCalibration dbg fmt true M D =
      some (true, some (unlines
        ([showU16 M.rows, showU16 M.cols] ++ M.data.map fmt ++
         [showU16 D.rows, showU16 D.cols] ++ D.data.map fmt))) ∧
    (M.data.map fmt).length = M.rows * M.cols ∧
    (∀ i j, i < M.rows → j < M.cols →
      (M.data.map fmt)[i * M.cols + j]? = (M.getAt dbg i j).map fmt) ∧
    (D.data.map fmt).length = D.rows * D.cols ∧
    (∀ i j, i < D.rows → j < D.cols →
      (D.data.map fmt)[i * D.cols + j]? = (D.getAt dbg i j).map fmt) ∧
    (M.rows = 3 → M.cols = 3 → ∃ rest,
      saveCameraCalibration dbg fmt true M D =
        some (true, some ("3\n3\n".toList ++ rest))) := by
  have hsave := saveCameraCalibration_small dbg fmt M D hM hD hMr hMc hDr hDc
  refine ⟨hsave, ?_, fun i j hi hj => getElem?_map_data dbg fmt M i j hi hj, ?_,
    fun i j hi hj => getElem?_map_data dbg fmt D i j hi hj, ?_⟩
  · rw [List.length_map]; exact hM
  · rw [List.length_map]; exact hD
  · intro h3r h3c
    rw [hsave, h3r, h3c]
    refine ⟨unlines (M.data.map fmt ++ [showU16 D.rows, showU16 D.cols] ++ D.data.map fmt), ?_⟩
    have h3 : showU16 3 = "3".toList := by decide
    have h33 : "3\n3\n".toList = "3".toList ++ endl ++ ("3".toList ++ endl) := by decide
    rw [h33]
    simp [unlines, h3]

/-! ## Horizontal concatenation -/

theorem length_blocks {α : Type} (f : Nat → List α) (n m : Nat)
    (hlen : ∀ i, i < m → (f i).length = n) :
    ((List.range m).flatMap f).length = m * n := by
  induction m with
  | zero => simp
  | succ m ih =>
    rw [List.range_succ, List.flatMap_append, List.length_append,
      ih (fun i hi => hlen i (by omega))]
    simp [hlen m (by omega), Nat.succ_mul]

theorem getElem?_blocks {α : Type} (f : Nat → List α) (n m : Nat)
    (hlen : ∀ i, i < m → (f i).length = n) (i j : Nat) (hi : i < m) (hj : j < n) :
    ((List.range m).flatMap f)[i * n + j]? = (f i)[j]? := by
  induction m with
  | zero => omega
  | succ m ih =>
    have hlen0 : ∀ i, i < m → (f i).length = n := fun i hi => hlen i (by omega)
    rw [List.range_succ, List.flatMap_append]
    by_cases h : i < m
    · have hlt : i * n + j < m * n := by
        calc i * n + j < i * n + n := by omega
          _ = (i + 1) * n := by ring
          _ ≤ m * n := Nat.mul_le_mul_right n h
      rw [List.getElem?_append_left (by rw [length_blocks f n m hlen0]; exact hlt)]
      exact ih hlen0 h
    · have him : i = m := by omega
      subst him
      rw [List.getElem?_append_right (by rw [length_blocks f n i hlen0]; omega),
        length_blocks f n i hlen0]
      simp

theorem length_row {F : Type} (m : Mat F) (hwf : m.WF) (r : Nat) (hr : r < m.rows) :
    ((m.data.drop (r * m.cols)).take m.cols).length = m.cols := by
  rw [List.length_take, List.length_drop, hwf]
  have : (r + 1) * m.cols ≤ m.rows * m.cols := Nat.mul_le_mul_right _ hr
  have h2 : (r + 1) * m.cols = r * m.cols + m.cols := by ring
  omega

theorem getElem?_row {F : Type} (m : Mat F) (r c : Nat) (hc : c < m.cols) :
    ((m.data.drop (r * m.cols)).take m.cols)[c]? = m.data[r * m.cols + c]? := by
  rw [List.getElem?_take_of_lt hc, List.getElem?_drop]

/-- The matrix `hconcat a b` of two matrices with as many rows: its shape,
and where the elements of `a` and of `b` are found in it. -/
theorem hconcat_spec {F : Type} (dbg : Bool) (a b : Mat F) (ha : a.WF) (hb : b.WF)
    (hrows : a.rows = b.rows) :
    ∃ E, hconcat a b = some E ∧ E.rows = a.rows ∧ E.cols = a.cols + b.cols ∧ E.WF ∧
      (∀ r c, r < a.rows → c < a.cols → E.getAt dbg r c = a.getAt dbg r c) ∧
      (∀ r c, r < a.rows → c < b.cols → E.getAt dbg r (a.cols + c) = b.getAt dbg r c) := by
  have hlen : ∀ r, r < a.rows →
      ((a.data.drop (r * a.cols)).take a.cols ++ (b.data.drop (r * b.cols)).take b.cols).length =
        a.cols + b.cols := by
    intro r hr
    rw [List.length_append, length_row a ha r hr, length_row b hb r (by omega)]
  let E : Mat F := ⟨a.rows, a.cols + b.cols,
      (List.range a.rows).flatMap (fun r =>
        (a.data.drop (r * a.cols)).take a.cols ++ (b.data.drop (r * b.cols)).take b.cols)⟩
  have hE : hconcat a b = some E := by
    unfold hconcat
    rw [if_pos hrows]
  have hEr : E.rows = a.rows := rfl
  have hEc : E.cols = a.cols + b.cols := rfl
  refine ⟨E, hE, rfl, rfl, ?_, ?_, ?_⟩
  · exact length_blocks _ _ _ hlen
  · intro r c hr hc
    rw [Mat.getAt_eq dbg E r c (by rw [hEr]; exact hr) (by rw [hEc]; omega),
      Mat.getAt_eq dbg a r c hr hc]
    show ((List.range a.rows).flatMap _)[r * (a.cols + b.cols) + c]? = _
    rw [getElem?_blocks _ _ _ hlen r c hr (by omega),
      List.getElem?_append_left (by rw [length_row a ha r hr]; exact hc), getElem?_row a r c hc]
  · intro r c hr hc
    rw [Mat.getAt_eq dbg E r (a.cols + c) (by rw [hEr]; exact hr) (by rw [hEc]; omega),
      Mat.getAt_eq dbg b r c (by omega) hc]
    show ((List.range a.rows).flatMap _)[r * (a.cols + b.cols) + (a.cols + c)]? = _
    rw [getElem?_blocks _ _ _ hlen r (a.cols + c) hr (by omega),
      List.getElem?_append_right (by rw [length_row a ha r hr]; omega), length_row a ha r hr,
      Nat.add_sub_cancel_left, getElem?_row b r c hc]

/-! ## The extrinsic solve -/

theorem showU16_3 : showU16 3 = "3".toList := by decide

theorem showU16_4 : showU16 4 = "4".toList := by decide

/-- C9.  When the Rodrigues conversion of the rotation vector is a `3 x 3`
matrix `Rm` and the translation vector is `3 x 1`, `solveExtrinsicMatrix`
hands back the `3 x 4` matrix whose columns `0..2` are `Rm` and whose column
`3` is the translation vector, and the file it writes (when the stream
opens) consists of the lines `3`, `4` and the twelve values, the value at
`(r, c)` on value line `r * 4 + c`. -/
theorem solveExtrinsicMatrix_shape {F : Type} (dbg : Bool)
    (solvePnPRansac : Mat F → Mat F → Pose F) (Rodrigues : Mat F → Option (Mat F))
    (fmt : F → List Char) (now : String) (opens : Bool) (K dist Rm : Mat F)
    (hR : Rodrigues (solvePnPRansac K dist).rvec = some Rm)
    (hRwf : Rm.WF) (hRr : Rm.rows = 3) (hRc : Rm.cols = 3)
    (htwf : (solvePnPRansac K dist).tvec.WF)
    (htr : (solvePnPRansac K dist).tvec.rows = 3)
    (htc : (solvePnPRansac K dist).tvec.cols = 1) :
    ∃ E : Mat F,
      hconcat Rm (solvePnPRansac K dist).tvec = some E ∧
      E.rows = 3 ∧ E.cols = 4 ∧ E.data.length = 12 ∧
      (∀ r c, r < 3 → c < 3 → E.getAt dbg r c = Rm.getAt dbg r c) ∧
      (∀ r, r < 3 → E.getAt dbg r 3 = (solvePnPRansac K dist).tvec.getAt dbg r 0) ∧
      solveExtrinsicMatrix dbg solvePnPRansac Rodrigues fmt now opens K dist =
        some (true, E,
          if opens then
            some ("../Extrinsics" ++ now ++ ".csv",
              unlines ("3".toList :: "4".toList :: E.data.map fmt))
          else none) ∧
      (∀ r c, r < 3 → c < 4 → (E.data.map fmt)[r * 4 + c]? = (E.getAt dbg r c).map fmt) := by
  obtain ⟨E, hE, hEr, hEc, hEwf, hleft, hright⟩ :=
    hconcat_spec dbg Rm (solvePnPRansac K dist).tvec hRwf htwf (by rw [hRr, htr])
  rw [hRr] at hEr hleft hright
  rw [hRc, htc] at hEc
  rw [hRc] at hleft hright
  rw [htc] at hright
  have hlen : E.data.length = 12 := by rw [hEwf, hEr, hEc]
  refine ⟨E, hE, hEr, hEc, hlen, hleft, fun r hr => hright r 0 hr (by omega), ?_, ?_⟩
  · unfold solveExtrinsicMatrix
    simp only [hR, hE]
    cases opens with
    | false => simp
    | true =>
      rw [writeMat_small dbg fmt E hEwf (by omega) (by omega), hEr, hEc, showU16_3, showU16_4]
      simp
  · intro r c hr hc
    have := getElem?_map_data dbg fmt E r c (by omega) (by omega)
    rw [hEc] at this
    exact this

/-- The instance of C9 on a pose estimation that leaves zero vectors and a
conversion that yields the identity. -/
theorem solveExtrinsicMatrix_shape_witness :
    ∃ E : Mat Nat,
      hconcat (⟨3, 3, [1, 0, 0, 0, 1, 0, 0, 0, 1]⟩ : Mat Nat) (Mat.zeros 3 1) = some E ∧
      E.rows = 3 ∧ E.cols = 4 ∧
      solveExtrinsicMatrix false noPose rodriguesZero showU16 "t" true (Mat.zeros 3 3)
          (Mat.zeros 8 1) =
        some (true, E,
          some ("../Extrinsics" ++ "t" ++ ".csv",
            unlines ("3".toList :: "4".toList :: E.data.map showU16))) := by
  obtain ⟨E, h1, h2, h3, _, _, _, h4, _⟩ :=
    solveExtrinsicMatrix_shape false noPose rodriguesZero showU16 "t" true (Mat.zeros 3 3)
      (Mat.zeros 8 1) ⟨3, 3, [1, 0, 0, 0, 1, 0, 0, 0, 1]⟩ rfl (by decide) rfl rfl (by decide)
      rfl rfl
  exact ⟨E, h1, h2, h3, h4⟩

/-- C8, as stated, fails: on a pose estimation that reports that no pose was
found, `solveExtrinsicMatrix` returns `true`, hands back `[I | 0]` and writes
it to the file. -/
theorem solveExtrinsicMatrix_no_pose_returns_true :
    (noPose (Mat.zeros 3 3) (Mat.zeros 8 1)).found = false ∧
    solveExtrinsicMatrix false noPose rodriguesZero showU16 "t" true (Mat.zeros 3 3)
        (Mat.zeros 8 1) =
      some (true, ⟨3, 4, [1, 0, 0, 0, 0, 1, 0, 0, 0, 0, 1, 0]⟩,
        some ("../Extrinsicst.csv", "3\n4\n1\n0\n0\n0\n0\n1\n0\n0\n0\n0\n1\n0\n".toList)) := by
  decide

/-- C8, amended.  `solveExtrinsicMatrix` never returns `false`: whenever it
returns, the flag is `true`.  The flag of the pose estimation is not
consulted: with the flag forced to `true` the result is the same.  And it
does return whenever the conversion yields a matrix with as many rows as the
translation vector: it then hands back their concatenation `E`, and when the
stream opens it writes the file `../Extrinsics<now>.csv`, whose text is the
two counts of `E` narrowed to sixteen bits and the elements of `E` row by
row, one a line. -/
theorem solveExtrinsicMatrix_never_false {F : Type} (dbg : Bool)
    (solvePnPRansac : Mat F → Mat F → Pose F) (Rodrigues : Mat F → Option (Mat F))
    (fmt : F → List Char) (now : String) (opens : Bool) (K dist : Mat F) :
    (∀ r, solveExtrinsicMatrix dbg solvePnPRansac Rodrigues fmt now opens K dist = some r →
      r.1 = true) ∧
    solveExtrinsicMatrix dbg solvePnPRansac Rodrigues fmt now opens K dist =
      solveExtrinsicMatrix dbg (fun a b => { solvePnPRansac a b with found := true })
        Rodrigues fmt now opens K dist ∧
    ∀ Rm, Rodrigues (solvePnPRansac K dist).rvec = some Rm → Rm.WF →
      (solvePnPRansac K dist).tvec.WF → Rm.rows = (solvePnPRansac K dist).tvec.rows →
      ∃ E file, hconcat Rm (solvePnPRansac K dist).tvec = some E ∧
        solveExtrinsicMatrix dbg solvePnPRansac Rodrigues fmt now opens K dist =
          some (true, E, file) ∧
        (opens = true → file.isSome = true) ∧
        file =
          if opens then
            some ("../Extrinsics" ++ now ++ ".csv",
              unlines (showU16 (E.rows % 65536) :: showU16 (E.cols % 65536) ::
                (List.range (E.rows % 65536)).flatMap (fun r =>
                  ((E.data.drop (r * E.cols)).take (E.cols % 65536)).map fmt)))
          else none := by
  refine ⟨?_, rfl, ?_⟩
  · intro r hr
    unfold solveExtrinsicMatrix at hr
    simp only at hr
    split at hr
    · cases hr
    · split at hr
      · cases hr
      · split at hr
        · split at hr
          · cases hr
          · cases hr; rfl
        · cases hr; rfl
  · intro Rm hR hRwf htwf hrows
    obtain ⟨E, hE, _, _, hEwf, _, _⟩ :=
      hconcat_spec dbg Rm (solvePnPRansac K dist).tvec hRwf htwf hrows
    unfold solveExtrinsicMatrix
    simp only [hR, hE]
    cases opens with
    | false => exact ⟨E, none, rfl, rfl, by simp, rfl⟩
    | true =>
      rw [writeMat_eq dbg fmt E hEwf]
      exact ⟨E, some (_, _), rfl, rfl, fun _ => rfl, by simp⟩

/-- The instance of the amended C8 on the pose estimation that finds no
pose. -/
theorem solveExtrinsicMatrix_never_false_witness :
    ∃ E file, hconcat (⟨3, 3, [1, 0, 0, 0, 1, 0, 0, 0, 1]⟩ : Mat Nat) (Mat.zeros 3 1) = some E ∧
      solveExtrinsicMatrix false noPose rodriguesZero showU16 "t" true (Mat.zeros 3 3)
          (Mat.zeros 8 1) = some (true, E, file) ∧
      (true = true → file.isSome = true) ∧
      file =
        if true = true then
          some ("../Extrinsics" ++ "t" ++ ".csv",
            unlines (showU16 (E.rows % 65536) :: showU16 (E.cols % 65536) ::
              (List.range (E.rows % 65536)).flatMap (fun r =>
                ((E.data.drop (r * E.cols)).take (E.cols % 65536)).map showU16)))
        else none :=
  (solveExtrinsicMatrix_never_false false noPose rodriguesZero showU16 "t" true (Mat.zeros 3 3)
    (Mat.zeros 8 1)).2.2 ⟨3, 3, [1, 0, 0, 0, 1, 0, 0, 0, 1]⟩ rfl (by decide) (by decide) rfl

/-! ## The matrix codec: the written layout at concrete matrices -/

/-- C2, as stated, fails: for a camera matrix of `65536` rows and one column
the file starts with the line `0`, not `65536`, and holds no value line of
the camera matrix at all. -/
theorem saveCameraCalibration_wraps_rows :
    tallMat.WF ∧ tallMat.rows = 65536 ∧ tallMat.cols = 1 ∧
    showU16 65536 = "65536".toList ∧
    saveCameraCalibration false showU16 true tallMat ⟨1, 1, [0]⟩ =
      some (true, some "0\n1\n1\n1\n0\n".toList) := by
  refine ⟨?_, rfl, rfl, by decide, by decide⟩
  show (List.replicate 65536 0).length = 65536 * 1
  rw [List.length_replicate]

/-- The instance of the amended C2 on a `3 x 3` camera matrix and an `8 x 1`
distortion vector. -/
theorem saveCameraCalibration_layout_witness :
    saveCameraCalibration false showU16 true
        (⟨3, 3, [4, 0, 2, 0, 4, 1, 0, 0, 1]⟩ : Mat Nat) ⟨8, 1, List.replicate 8 0⟩ =
      some (true, some (unlines
        ([showU16 3, showU16 3] ++ [4, 0, 2, 0, 4, 1, 0, 0, 1].map showU16 ++
         [showU16 8, showU16 1] ++ (List.replicate 8 0).map showU16))) :=
  (saveCameraCalibration_layout false showU16 ⟨3, 3, [4, 0, 2, 0, 4, 1, 0, 0, 1]⟩
    ⟨8, 1, List.replicate 8 0⟩ (by decide) (by decide) (by decide) (by decide) (by decide)
    (by decide)).1

/-! ## The matrix codec: reading -/

theorem Mat.setAt_eq {F : Type} (dbg : Bool) (m : Mat F) (hwf : m.WF) (r c : Nat) (v : F)
    (hr : r < m.rows) (hc : c < m.cols) :
    m.setAt dbg r c v = some { m with data := m.data.set (r * m.cols + c) v } := by
  have := Mat.index_lt m hwf r c hr hc
  simp [Mat.setAt, Mat.inRange, hr, hc, this]

/-- The inner reading loop on a matrix of the declared shape runs through,
whatever the stream holds, and keeps the shape. -/
theorem readRow_total {F : Type} [Zero F] (dbg : Bool) (scanF : List Char → Scan F)
    (rows columns r : Nat) (hr : r < rows) (k : Nat) (hk : k ≤ columns)
    (st : Mat F × IStream)
    (hshape : st.1.rows = rows ∧ st.1.cols = columns ∧ st.1.WF) :
    ∃ st1, (List.range k).foldlM
        (fun st c =>
          (st.1.setAt dbg r c (extract scanF st.2 0).1).map
            (fun m => (m, (extract scanF st.2 0).2)))
        st = some st1 ∧
      st1.1.rows = rows ∧ st1.1.cols = columns ∧ st1.1.WF := by
  induction k with
  | zero => exact ⟨st, by simp, hshape⟩
  | succ k ih =>
    obtain ⟨st1, hst1, h1, h2, h3⟩ := ih (by omega)
    rw [List.range_succ, List.foldlM_append, hst1]
    simp only [Option.some_bind, Option.bind_eq_bind, List.foldlM_cons, List.foldlM_nil]
    rw [Mat.setAt_eq dbg st1.1 h3 r k _ (by omega) (by omega)]
    refine ⟨({ st1.1 with data := st1.1.data.set (r * st1.1.cols + k) (extract scanF st1.2 0).1 },
      (extract scanF st1.2 0).2), by simp, h1, h2, ?_⟩
    simp only [Mat.WF, List.length_set]
    exact h3

theorem readMat_total {F : Type} [Zero F] (dbg : Bool) (scanF : List Char → Scan F)
    (rows columns : Nat) (m : Mat F) (s : IStream)
    (hrows : m.rows = rows) (hcols : m.cols = columns) (hwf : m.WF) :
    ∃ st1, readMat dbg scanF rows columns m s = some st1 ∧
      st1.1.rows = rows ∧ st1.1.cols = columns ∧ st1.1.WF := by
  unfold readMat
  have key : ∀ k, k ≤ rows → ∃ st1, (List.range k).foldlM
      (fun st r =>
        (List.range columns).foldlM
          (fun st c =>
            (st.1.setAt dbg r c (extract scanF st.2 0).1).map
              (fun m => (m, (extract scanF st.2 0).2)))
          st)
      (m, s) = some st1 ∧ st1.1.rows = rows ∧ st1.1.cols = columns ∧ st1.1.WF := by
    intro k
    induction k with
    | zero => intro _; exact ⟨(m, s), by simp, hrows, hcols, hwf⟩
    | succ k ih =>
      intro hk
      obtain ⟨st1, hst1, h1, h2, h3⟩ := ih (by omega)
      obtain ⟨st2, hst2, h4⟩ :=
        readRow_total dbg scanF rows columns k (by omega) columns (le_refl _) st1 ⟨h1, h2, h3⟩
      rw [List.range_succ, List.foldlM_append, hst1]
      simp only [Option.some_bind, Option.bind_eq_bind, List.foldlM_cons, List.foldlM_nil]
      rw [hst2]
      exact ⟨st2, by simp, h4⟩
  exact key rows (le_refl _)

theorem readMat_shape {F : Type} [Zero F] (dbg : Bool) (scanF : List Char → Scan F)
    (rows columns : Nat) (m : Mat F) (s : IStream) (st1 : Mat F × IStream)
    (hrows : m.rows = rows) (hcols : m.cols = columns) (hwf : m.WF)
    (h : readMat dbg scanF rows columns m s = some st1) :
    st1.1.rows = rows ∧ st1.1.cols = columns ∧ st1.1.WF := by
  obtain ⟨st2, hst2, hshape⟩ := readMat_total dbg scanF rows columns m s hrows hcols hwf
  rw [hst2] at h
  cases h
  exact hshape

theorem readMat_ne_none {F : Type} [Zero F] (dbg : Bool) (scanF : List Char → Scan F)
    (rows columns : Nat) (m : Mat F) (s : IStream)
    (hrows : m.rows = rows) (hcols : m.cols = columns) (hwf : m.WF) :
    readMat dbg scanF rows columns m s ≠ none := by
  obtain ⟨st2, hst2, _⟩ := readMat_total dbg scanF rows columns m s hrows hcols hwf
  rw [hst2]
  exact Option.some_ne_none _

theorem Mat.zeros_WF {F : Type} [Zero F] (rows cols : Nat) : (Mat.zeros rows cols : Mat F).WF := by
  simp [Mat.WF, Mat.zeros]

theorem Mat.ofSize_WF {F : Type} (junk : Nat → F) (w h : Nat) : (Mat.ofSize junk w h).WF := by
  simp [Mat.WF, Mat.ofSize]

theorem extractU16_ok (scan : List Char → Scan Nat) (text rest : List Char) (n x : Nat)
    (h : scan text = Scan.ok n rest) :
    extractU16 scan ⟨text, false⟩ x = (n % 65536, ⟨rest, false⟩) := by
  simp [extractU16, extract, h]

/-- C3, as stated, fails: the text `1 1` declares a `1 x 1` camera matrix and
holds no value at all, and `loadCameraCalibration` returns `true` on it, the
missing entries read as zero, with and without the index check. -/
theorem loadCameraCalibration_accepts_short_file :
    scanU16 "1\n1\n".toList = Scan.ok 1 "\n1\n".toList ∧
    scanU16 "\n1\n".toList = Scan.ok 1 "\n".toList ∧
    scanNat "\n".toList = Scan.eof ∧
    loadCameraCalibration true scanU16 scanNat (fun _ => 7) 9 9 (some "1\n1\n".toList)
        (Mat.zeros 0 0) (Mat.zeros 0 0) =
      some (true, ⟨1, 1, [0]⟩, ⟨1, 1, [0]⟩) ∧
    loadCameraCalibration false scanU16 scanNat (fun _ => 7) 9 9 (some "1\n1\n".toList)
        (Mat.zeros 0 0) (Mat.zeros 0 0) =
      some (true, ⟨1, 1, [0]⟩, ⟨1, 1, [0]⟩) := by
  decide

/-- C3, amended.  `loadCameraCalibration` reports failure only when the file
cannot be opened, and then leaves both matrices alone.  On a file that opens
it never returns `false`, whatever the number of values in it; and when the
two counts read first are equal, it does return `true`, with a camera matrix
of that many rows and columns. -/
theorem loadCameraCalibration_reports_success {F : Type} [Zero F] (dbg : Bool)
    (scanU16 : List Char → Scan Nat) (scanF : List Char → Scan F) (junk : Nat → F)
    (rows0 columns0 : Nat) (cam0 dist0 : Mat F) :
    loadCameraCalibration dbg scanU16 scanF junk rows0 columns0 none cam0 dist0 =
      some (false, cam0, dist0) ∧
    (∀ text r,
      loadCameraCalibration dbg scanU16 scanF junk rows0 columns0 (some text) cam0 dist0 =
        some r → r.1 = true) ∧
    ∀ text n rest1 rest2, scanU16 text = Scan.ok n rest1 → scanU16 rest1 = Scan.ok n rest2 →
      ∃ cam dist,
        loadCameraCalibration dbg scanU16 scanF junk rows0 columns0 (some text) cam0 dist0 =
          some (true, cam, dist) ∧
        cam.rows = n % 65536 ∧ cam.cols = n % 65536 := by
  refine ⟨rfl, ?_, ?_⟩
  · intro text r hr
    unfold loadCameraCalibration at hr
    simp only at hr
    split at hr
    · cases hr
    · split at hr
      · cases hr
      · cases hr; rfl
  · intro text n rest1 rest2 h1 h2
    have e1 := extractU16_ok scanU16 text rest1 n rows0 h1
    have e2 := extractU16_ok scanU16 rest1 rest2 n columns0 h2
    cases hload :
        loadCameraCalibration dbg scanU16 scanF junk rows0 columns0 (some text) cam0 dist0 with
    | none =>
      exfalso
      unfold loadCameraCalibration at hload
      simp only [e1, e2] at hload
      split at hload
      · rename_i heq
        exact readMat_ne_none dbg scanF _ _ _ _ rfl rfl (Mat.ofSize_WF _ _ _) heq
      · split at hload
        · rename_i heq
          exact readMat_ne_none dbg scanF _ _ _ _ rfl rfl (Mat.zeros_WF _ _) heq
        · cases hload
    | some r =>
      unfold loadCameraCalibration at hload
      simp only [e1, e2] at hload
      split at hload
      · cases hload
      · rename_i cam s heq
        have hshape := readMat_shape dbg scanF _ _ _ _ _ rfl rfl (Mat.ofSize_WF _ _ _) heq
        split at hload
        · cases hload
        · rename_i dist s2 heq2
          cases hload
          exact ⟨cam, dist, rfl, hshape.1, hshape.2.1⟩

/-- The instance of the amended C3 on the decimal scanners and the text
`2 2 7`, which declares four values and holds one. -/
theorem loadCameraCalibration_reports_success_witness :
    ∃ cam dist,
      loadCameraCalibration false scanU16 scanNat (fun _ => 7) 9 9 (some "2\n2\n7\n".toList)
          (Mat.zeros 0 0) (Mat.zeros 0 0) = some (true, cam, dist) ∧
      cam.rows = 2 % 65536 ∧ cam.cols = 2 % 65536 :=
  (loadCameraCalibration_reports_success false scanU16 scanNat (fun _ => 7) 9 9
    (Mat.zeros 0 0) (Mat.zeros 0 0)).2.2 "2\n2\n7\n".toList 2 "\n2\n7\n".toList
    "\n7\n".toList (by decide) (by decide)

/-- C1 at the camera matrix `[5 6]` of one row and two columns: the file
written by `saveCameraCalibration` declares `1` and `2`, and on that file
`loadCameraCalibration` builds a camera matrix of two rows and one column
(it returns it when the index check is compiled out and aborts on the
element `(0, 1)` when it is compiled in); in neither case does it return a
matrix of one row and two columns. -/
theorem loadCameraCalibration_swaps_dimensions :
    saveCameraCalibration false showU16 true (⟨1, 2, [5, 6]⟩ : Mat Nat) ⟨1, 1, [0]⟩ =
      some (true, some "1\n2\n5\n6\n1\n1\n0\n".toList) ∧
    loadCameraCalibration false scanU16 scanNat (fun _ => 7) 9 9
        (some "1\n2\n5\n6\n1\n1\n0\n".toList) (Mat.zeros 0 0) (Mat.zeros 0 0) =
      some (true, ⟨2, 1, [5, 6]⟩, ⟨1, 1, [0]⟩) ∧
    loadCameraCalibration true scanU16 scanNat (fun _ => 7) 9 9
        (some "1\n2\n5\n6\n1\n1\n0\n".toList) (Mat.zeros 0 0) (Mat.zeros 0 0) = none := by
  decide

/-! ## The matrix codec: reading back what was written -/

theorem cell_lt {rows columns r c : Nat} (hr : r < rows) (hc : c < columns) :
    r * columns + c < rows * columns := by
  calc r * columns + c < r * columns + columns := by omega
    _ = (r + 1) * columns := by ring
    _ ≤ rows * columns := Nat.mul_le_mul_right _ hr

/-- One iteration of the reading loop on a file that holds the values. -/
theorem readStep_values {F : Type} [Zero F] (dbg : Bool) (scanF : List Char → Scan F)
    (fmt : F → List Char) (pass : F → F) (rows columns : Nat) (vals : List F)
    (tail : List Char) (hlen : vals.length = rows * columns)
    (hF : ∀ v ∈ vals, ∀ rest, scanF (endl ++ (fmt v ++ (endl ++ rest))) =
      Scan.ok (pass v) (endl ++ rest))
    (r c : Nat) (hr : r < rows) (hc : c < columns) (st : Mat F × IStream)
    (h : ReadInv fmt pass rows columns vals tail (r * columns + c) st) :
    ∃ st1, (st.1.setAt dbg r c (extract scanF st.2 0).1).map
        (fun m => (m, (extract scanF st.2 0).2)) = some st1 ∧
      ReadInv fmt pass rows columns vals tail (r * columns + c + 1) st1 := by
  obtain ⟨h1, h2, h3, h4, h5⟩ := h
  have hj : r * columns + c < vals.length := by rw [hlen]; exact cell_lt hr hc
  have hdrop := List.drop_eq_getElem_cons hj
  have hex : extract scanF st.2 0 =
      (pass vals[r * columns + c],
        ⟨endl ++ (unlines ((vals.drop (r * columns + c + 1)).map fmt) ++ tail), false⟩) := by
    rw [h5, hdrop]
    simp only [extract, List.map_cons, unlines, List.flatMap_cons, List.append_assoc]
    rw [hF _ (List.getElem_mem hj)]
    simp
  rw [hex, Mat.setAt_eq dbg st.1 h3 r c _ (by omega) (by omega)]
  refine ⟨_, rfl, h1, h2, ?_, ?_, rfl⟩
  · simp only [Mat.WF, List.length_set]; exact h3
  · intro i hi
    simp only [h2]
    by_cases hij : i = r * columns + c
    · subst hij
      rw [List.getElem?_set_self (by rw [h3, h1, h2]; exact cell_lt hr hc),
        List.getElem?_eq_getElem hj]
      rfl
    · rw [List.getElem?_set_ne (Ne.symm hij)]
      exact h4 i (by omega)

theorem readRow_values {F : Type} [Zero F] (dbg : Bool) (scanF : List Char → Scan F)
    (fmt : F → List Char) (pass : F → F) (rows columns : Nat) (vals : List F)
    (tail : List Char) (hlen : vals.length = rows * columns)
    (hF : ∀ v ∈ vals, ∀ rest, scanF (endl ++ (fmt v ++ (endl ++ rest))) =
      Scan.ok (pass v) (endl ++ rest))
    (r : Nat) (hr : r < rows) (k : Nat) (hk : k ≤ columns) (st : Mat F × IStream)
    (h : ReadInv fmt pass rows columns vals tail (r * columns) st) :
    ∃ st1, (List.range k).foldlM
        (fun st c =>
          (st.1.setAt dbg r c (extract scanF st.2 0).1).map
            (fun m => (m, (extract scanF st.2 0).2)))
        st = some st1 ∧
      ReadInv fmt pass rows columns vals tail (r * columns + k) st1 := by
  induction k with
  | zero => exact ⟨st, by simp, h⟩
  | succ k ih =>
    obtain ⟨st1, hst1, hinv⟩ := ih (by omega)
    obtain ⟨st2, hst2, hinv2⟩ :=
      readStep_values dbg scanF fmt pass rows columns vals tail hlen hF r k hr (by omega) st1 hinv
    rw [List.range_succ, List.foldlM_append, hst1]
    simp only [Option.some_bind, Option.bind_eq_bind, List.foldlM_cons, List.foldlM_nil]
    rw [hst2]
    exact ⟨st2, by simp, hinv2⟩

/-- The reading loops on a matrix of the declared shape and a stream that
holds the values `vals`: they run through, the buffer becomes the values read
back, and the stream is left before `tail`. -/
theorem readMat_values {F : Type} [Zero F] (dbg : Bool) (scanF : List Char → Scan F)
    (fmt : F → List Char) (pass : F → F) (rows columns : Nat) (vals : List F)
    (tail : List Char) (hlen : vals.length = rows * columns)
    (hF : ∀ v ∈ vals, ∀ rest, scanF (endl ++ (fmt v ++ (endl ++ rest))) =
      Scan.ok (pass v) (endl ++ rest))
    (m : Mat F) (hrows : m.rows = rows) (hcols : m.cols = columns) (hwf : m.WF) :
    readMat dbg scanF rows columns m ⟨endl ++ (unlines (vals.map fmt) ++ tail), false⟩ =
      some (⟨rows, columns, vals.map pass⟩, ⟨endl ++ tail, false⟩) := by
  have key : ∀ k, k ≤ rows → ∃ st1, (List.range k).foldlM
      (fun st r =>
        (List.range columns).foldlM
          (fun st c =>
            (st.1.setAt dbg r c (extract scanF st.2 0).1).map
              (fun m => (m, (extract scanF st.2 0).2)))
          st)
      (m, ⟨endl ++ (unlines (vals.map fmt) ++ tail), false⟩) = some st1 ∧
      ReadInv fmt pass rows columns vals tail (k * columns) st1 := by
    intro k
    induction k with
    | zero =>
      intro _
      exact ⟨(m, ⟨endl ++ (unlines (vals.map fmt) ++ tail), false⟩), by simp, hrows, hcols, hwf,
        by simp, by simp⟩
    | succ k ih =>
      intro hk
      obtain ⟨st1, hst1, hinv⟩ := ih (by omega)
      obtain ⟨st2, hst2, hinv2⟩ :=
        readRow_values dbg scanF fmt pass rows columns vals tail hlen hF k (by omega) columns
          (le_refl _) st1 hinv
      rw [List.range_succ, List.foldlM_append, hst1]
      simp only [Option.some_bind, Option.bind_eq_bind, List.foldlM_cons, List.foldlM_nil]
      rw [hst2]
      refine ⟨st2, by simp, ?_⟩
      rw [Nat.succ_mul]
      exact hinv2
  obtain ⟨st1, hst1, h1, h2, h3, h4, h5⟩ := key rows (le_refl _)
  unfold readMat
  rw [hst1]
  have hdata : st1.1.data = vals.map pass := by
    apply List.ext_getElem?
    intro i
    by_cases hi : i < rows * columns
    · rw [h4 i hi, List.getElem?_map]
    · rw [List.getElem?_eq_none (by rw [h3, h1, h2]; omega),
        List.getElem?_eq_none (by rw [List.length_map, hlen]; omega)]
  have hstream : st1.2 = ⟨endl ++ tail, false⟩ := by
    rw [h5, ← hlen, List.drop_length]
    simp [unlines]
  rcases st1 with ⟨⟨r1, c1, d1⟩, s1⟩
  simp only at h1 h2 hdata hstream
  rw [h1, h2, hdata, hstream]

/-- The round trip of the codec on a square camera matrix.  When the counts
fit sixteen bits, the extraction reads the written counts back, and the
extraction of a `double` reads the text of `v` back as `pass v`, then
`loadCameraCalibration` on the file written by `saveCameraCalibration`
returns `true` and two matrices of the original shapes whose elements are the
original ones passed once through the formatting. -/
theorem loadCameraCalibration_saveCameraCalibration_square {F : Type} [Zero F] (dbg : Bool)
    (fmt : F → List Char) (scanU16 : List Char → Scan Nat) (scanF : List Char → Scan F)
    (pass : F → F) (junk : Nat → F) (rows0 columns0 : Nat) (cam0 dist0 M D : Mat F)
    (hM : M.WF) (hD : D.WF) (hsq : M.rows = M.cols)
    (hMr : M.rows < 65536) (hDr : D.rows < 65536) (hDc : D.cols < 65536)
    (hU0 : ∀ rest, scanU16 (showU16 M.rows ++ (endl ++ rest)) = Scan.ok M.rows (endl ++ rest))
    (hU : ∀ n ∈ [M.cols, D.rows, D.cols], ∀ rest,
      scanU16 (endl ++ (showU16 n ++ (endl ++ rest))) = Scan.ok n (endl ++ rest))
    (hF : ∀ v ∈ M.data ++ D.data, ∀ rest,
      scanF (endl ++ (fmt v ++ (endl ++ rest))) = Scan.ok (pass v) (endl ++ rest)) :
    ∃ text, saveCameraCalibration dbg fmt true M D = some (true, some text) ∧
      loadCameraCalibration dbg scanU16 scanF junk rows0 columns0 (some text) cam0 dist0 =
        some (true, ⟨M.rows, M.cols, M.data.map pass⟩, ⟨D.rows, D.cols, D.data.map pass⟩) := by
  have hMc : M.cols < 65536 := by omega
  refine ⟨_, saveCameraCalibration_small dbg fmt M D hM hD hMr hMc hDr hDc, ?_⟩
  have htext : unlines ([showU16 M.rows, showU16 M.cols] ++ M.data.map fmt ++
        [showU16 D.rows, showU16 D.cols] ++ D.data.map fmt) =
      showU16 M.rows ++ (endl ++ (showU16 M.cols ++ (endl ++ (unlines (M.data.map fmt) ++
        (showU16 D.rows ++ (endl ++ (showU16 D.cols ++
          (endl ++ (unlines (D.data.map fmt) ++ []))))))))) := by
    simp [unlines, List.append_assoc]
  rw [htext]
  unfold loadCameraCalibration
  simp only
  rw [extractU16_ok scanU16 _ _ M.rows rows0 (hU0 _)]
  simp only [Nat.mod_eq_of_lt hMr]
  rw [extractU16_ok scanU16 _ _ M.cols columns0 (hU M.cols (by simp) _)]
  simp only [Nat.mod_eq_of_lt hMc]
  rw [readMat_values dbg scanF fmt pass M.rows M.cols M.data _ hM
    (fun v hv => hF v (List.mem_append_left _ hv)) (Mat.ofSize junk M.rows M.cols)
    hsq.symm hsq (Mat.ofSize_WF _ _ _)]
  simp only
  rw [extractU16_ok scanU16 _ _ D.rows M.rows (hU D.rows (by simp) _)]
  simp only [Nat.mod_eq_of_lt hDr]
  rw [extractU16_ok scanU16 _ _ D.cols M.cols (hU D.cols (by simp) _)]
  simp only [Nat.mod_eq_of_lt hDc]
  rw [readMat_values dbg scanF fmt pass D.rows D.cols D.data [] hD
    (fun v hv => hF v (List.mem_append_right _ hv)) (Mat.zeros D.rows D.cols)
    rfl rfl (Mat.zeros_WF _ _)]

/-- The round trip at a `2 x 2` camera matrix with the decimal scanner. -/
theorem loadCameraCalibration_saveCameraCalibration_square_instance :
    ∃ text,
      saveCameraCalibration false showU16 true (⟨2, 2, [1, 2, 3, 4]⟩ : Mat Nat) ⟨1, 1, [0]⟩ =
        some (true, some text) ∧
      loadCameraCalibration false scanU16 scanNat (fun _ => 7) 9 9 (some text)
          (Mat.zeros 0 0) (Mat.zeros 0 0) =
        some (true, ⟨2, 2, [1, 2, 3, 4].map id⟩, ⟨1, 1, [0].map id⟩) := by
  refine loadCameraCalibration_saveCameraCalibration_square false showU16 scanU16 scanNat id
    (fun _ => 7) 9 9 (Mat.zeros 0 0) (Mat.zeros 0 0) ⟨2, 2, [1, 2, 3, 4]⟩ ⟨1, 1, [0]⟩
    (by decide) (by decide) rfl (by decide) (by decide) (by decide) ?_ ?_ ?_
  · intro rest; rfl
  · intro n hn rest
    simp only [List.mem_cons, List.mem_singleton, List.not_mem_nil, or_false] at hn
    rcases hn with rfl | rfl | rfl <;> rfl
  · intro v hv rest
    simp only [List.cons_append, List.nil_append, List.mem_cons, List.mem_singleton,
      List.not_mem_nil, or_false] at hv
    rcases hv with rfl | rfl | rfl | rfl | rfl <;> rfl

end CamCalib
